import Mathlib

/-!
Shallow embedding of the generational ECS core of `src/src/ecs.rs` and the
event bus of `src/src/event_bus.rs`.

Modelling conventions:
* Machine integers (`u32` ids and generations) are modelled as `Nat`; in the
  source a counter overflow is an arithmetic panic (debug) and no wrapped
  value is ever produced, so `Nat` semantics coincide on every non-panicking
  execution.
* Rust `panic!` / out-of-bounds indexing / `Option::unwrap` on `None` are
  modelled by `Option`-valued operations returning `none`; `none` means the
  operation does not complete.
* `HashMap` values are modelled as association lists (`alookup`/`ainsert`/
  `aerase` mirror `get`, `insert`, `remove`); `HashSet` values as `Finset`
  (for tag and interest sets) or as duplicate-free lists (for the wrapper's
  changed-entity set).  Iteration over a hash container is modelled by
  iterating the underlying list; every property proved below is independent
  of the iteration order the hash containers would give.
* Rust `TypeId` tags (for component types and system types) are modelled as
  `Nat`.  Component values of all types are collapsed to a single value type
  `Val := Nat`: the checked downcasts in the source always succeed (the pool
  stored under a `TypeId` always has that element type), so the claims under
  study never depend on the component value type.
-/

abbrev Val := Nat

inductive EcsError where
  | DeadEntity
  | NoSuchComponent
  | NoSuchSystem
deriving DecidableEq, Repr

structure Entity where
  id : Nat
  generation : Nat
deriving DecidableEq, Repr

def VEC_RESIZE_MARGIN : Nat := 10

/-- Association-list lookup, mirroring `HashMap::get`. -/
def alookup {κ β : Type} [DecidableEq κ] : List (κ × β) → κ → Option β
  | [], _ => none
  | (k, v) :: rest, q => if q = k then some v else alookup rest q

/-- Association-list insert-or-replace, mirroring `HashMap::insert`. -/
def ainsert {κ β : Type} [DecidableEq κ] : List (κ × β) → κ → β → List (κ × β)
  | [], k, v => [(k, v)]
  | (k', v') :: rest, k, v =>
      if k = k' then (k, v) :: rest else (k', v') :: ainsert rest k v

/-- Association-list removal, mirroring `HashMap::remove`. -/
def aerase {κ β : Type} [DecidableEq κ] : List (κ × β) → κ → List (κ × β)
  | [], _ => []
  | (k', v') :: rest, k => if k = k' then rest else (k', v') :: aerase rest k

structure EntityManager where
  free_entity_ids : List Nat
  next_entity_id : Nat
  generations : List Nat
deriving DecidableEq, Repr

namespace EntityManager

def new : EntityManager := ⟨[], 0, []⟩

/-- `EntityManager::alive_generation`: 0 beyond the end of `generations`. -/
def alive_generation (em : EntityManager) (entity_id : Nat) : Nat :=
  em.generations.getD entity_id 0

/-- `EntityManager::create_entity`.  The head of `free_entity_ids` is the top
of the Rust `Vec` stack (`pop` removes it). -/
def create_entity (em : EntityManager) : Entity × EntityManager :=
  match em.free_entity_ids with
  | entity_id :: rest =>
      (⟨entity_id, em.alive_generation entity_id⟩,
        { em with free_entity_ids := rest })
  | [] =>
      (⟨em.next_entity_id, em.alive_generation em.next_entity_id⟩,
        { em with next_entity_id := em.next_entity_id + 1 })

def is_alive (em : EntityManager) (e : Entity) : Prop :=
  e.generation = em.alive_generation e.id

def is_dead (em : EntityManager) (e : Entity) : Prop :=
  e.generation ≠ em.alive_generation e.id

instance (em : EntityManager) (e : Entity) : Decidable (em.is_alive e) :=
  inferInstanceAs (Decidable (_ = _))

instance (em : EntityManager) (e : Entity) : Decidable (em.is_dead e) :=
  inferInstanceAs (Decidable (_ ≠ _))

/-- The `generations` update of `EntityManager::remove_entity`: grow with
`VEC_RESIZE_MARGIN` head-room if the id is beyond the end, then increment the
slot. -/
def bumpAt (l : List Nat) (i : Nat) : List Nat :=
  let gens :=
    if l.length ≤ i then l ++ List.replicate (i + VEC_RESIZE_MARGIN - l.length) 0
    else l
  gens.set i (gens.getD i 0 + 1)

/-- `EntityManager::remove_entity`: reject stale handles, push the id on the
free stack and increment the recorded generation. -/
def remove_entity (em : EntityManager) (e : Entity) :
    Except EcsError EntityManager :=
  if em.is_dead e then .error .DeadEntity
  else
    .ok { free_entity_ids := e.id :: em.free_entity_ids,
          next_entity_id := em.next_entity_id,
          generations := bumpAt em.generations e.id }

end EntityManager

structure ComponentPool where
  components : List (Nat × Option Val)
deriving DecidableEq, Repr

namespace ComponentPool

/-- `ComponentPool::new_one`: allocates exactly `VEC_RESIZE_MARGIN` slots and
indexes slot `entity.id` into them; the source's `components[entity.id]`
panics (out-of-bounds) when `entity.id ≥ VEC_RESIZE_MARGIN`, modelled by
`none`. -/
def new_one (e : Entity) (c : Val) : Option ComponentPool :=
  if e.id < VEC_RESIZE_MARGIN then
    some ⟨(List.replicate VEC_RESIZE_MARGIN ((0 : Nat), (none : Option Val))).set
            e.id (e.generation, some c)⟩
  else none

/-- `ComponentPool::get`: `None` beyond the end, `None` when the slot's stamp
is older than the handle's generation. -/
def get (p : ComponentPool) (e : Entity) : Option Val :=
  match p.components.get? e.id with
  | none => none
  | some gc => if gc.1 < e.generation then none else gc.2

/-- `ComponentPool::get_mut` performs exactly the checks of `get`. -/
def get_mut (p : ComponentPool) (e : Entity) : Option Val :=
  match p.components.get? e.id with
  | none => none
  | some gc => if gc.1 < e.generation then none else gc.2

/-- `ComponentPool::set`: grow with head-room if needed, then overwrite the
slot with `(generation, Some value)`. -/
def set (p : ComponentPool) (e : Entity) (c : Val) : ComponentPool :=
  let comps :=
    if p.components.length ≤ e.id then
      p.components ++
        List.replicate (e.id + VEC_RESIZE_MARGIN - p.components.length)
          ((0 : Nat), (none : Option Val))
    else p.components
  ⟨comps.set e.id (e.generation, some c)⟩

/-- `ComponentPool::remove`: no-op beyond the end, otherwise store
`(generation, None)`. -/
def remove (p : ComponentPool) (e : Entity) : ComponentPool :=
  if p.components.length ≤ e.id then p
  else ⟨p.components.set e.id (e.generation, none)⟩

end ComponentPool

structure EntityComponentManager where
  entity_manager : EntityManager
  entity_components : List (Entity × Finset Nat)
  component_pools : List (Nat × ComponentPool)
deriving DecidableEq

namespace EntityComponentManager

def new : EntityComponentManager := ⟨EntityManager.new, [], []⟩

def is_alive (ecm : EntityComponentManager) (e : Entity) : Prop :=
  ecm.entity_manager.is_alive e

def is_dead (ecm : EntityComponentManager) (e : Entity) : Prop :=
  ecm.entity_manager.is_dead e

instance (ecm : EntityComponentManager) (e : Entity) :
    Decidable (ecm.is_alive e) :=
  inferInstanceAs (Decidable (_ = _))

instance (ecm : EntityComponentManager) (e : Entity) :
    Decidable (ecm.is_dead e) :=
  inferInstanceAs (Decidable (_ ≠ _))

/-- `EntityComponentManager::create_entity`: delegate, then register an empty
tag set for the fresh handle. -/
def create_entity (ecm : EntityComponentManager) :
    Entity × EntityComponentManager :=
  let p := ecm.entity_manager.create_entity
  (p.1, ⟨p.2, ainsert ecm.entity_components p.1 ∅, ecm.component_pools⟩)

/-- `EntityComponentManager::remove_entity`: the tag-map entry is removed
unconditionally before the allocator is consulted, so the mutated state is
returned alongside the result even on error. -/
def remove_entity (ecm : EntityComponentManager) (e : Entity) :
    Except EcsError Unit × EntityComponentManager :=
  let ec' := aerase ecm.entity_components e
  match ecm.entity_manager.remove_entity e with
  | .error err => (.error err, { ecm with entity_components := ec' })
  | .ok em' => (.ok (), ⟨em', ec', ecm.component_pools⟩)

/-- `EntityComponentManager::add_component`.  `none` models the two panics on
this path: the `unwrap` on the tag-map entry of a live handle without one
(unreachable in program executions) and the out-of-bounds slot write in
`ComponentPool::new_one`. -/
def add_component (ecm : EntityComponentManager) (e : Entity) (ct : Nat)
    (v : Val) : Option (Except EcsError Unit × EntityComponentManager) :=
  if ecm.is_dead e then some (.error .DeadEntity, ecm)
  else
    match alookup ecm.entity_components e with
    | none => none
    | some tags =>
        let ec' := ainsert ecm.entity_components e (insert ct tags)
        match alookup ecm.component_pools ct with
        | none =>
            match ComponentPool.new_one e v with
            | none => none
            | some pool =>
                some (.ok (),
                  ⟨ecm.entity_manager, ec', ainsert ecm.component_pools ct pool⟩)
        | some pool =>
            some (.ok (),
              ⟨ecm.entity_manager, ec',
                ainsert ecm.component_pools ct (pool.set e v)⟩)

/-- `EntityComponentManager::remove_component`: the tag is dropped before the
pool map is consulted, so the tag removal persists even when the pool for the
type is missing and `NoSuchComponent` is returned. -/
def remove_component (ecm : EntityComponentManager) (e : Entity) (ct : Nat) :
    Option (Except EcsError Unit × EntityComponentManager) :=
  if ecm.is_dead e then some (.error .DeadEntity, ecm)
  else
    match alookup ecm.entity_components e with
    | none => none
    | some tags =>
        let ec' := ainsert ecm.entity_components e (tags.erase ct)
        match alookup ecm.component_pools ct with
        | none =>
            some (.error .NoSuchComponent,
              ⟨ecm.entity_manager, ec', ecm.component_pools⟩)
        | some pool =>
            some (.ok (),
              ⟨ecm.entity_manager, ec',
                ainsert ecm.component_pools ct (pool.remove e)⟩)

/-- `EntityComponentManager::get_component`. -/
def get_component (ecm : EntityComponentManager) (e : Entity) (ct : Nat) :
    Except EcsError (Option Val) :=
  if ecm.is_dead e then .error .DeadEntity
  else
    match alookup ecm.component_pools ct with
    | none => .error .NoSuchComponent
    | some pool => .ok (pool.get e)

/-- `EntityComponentManager::get_component_mut`, as the value the returned
mutable reference points at (or the error). -/
def get_component_mut (ecm : EntityComponentManager) (e : Entity) (ct : Nat) :
    Except EcsError (Option Val) :=
  if ecm.is_dead e then .error .DeadEntity
  else
    match alookup ecm.component_pools ct with
    | none => .error .NoSuchComponent
    | some pool => .ok (pool.get_mut e)

/-- `EntityComponentManager::has_components`: the source unwraps the tag-map
entry; `none` is the panic on a handle without one. -/
def has_components (ecm : EntityComponentManager) (e : Entity) :
    Option (Finset Nat) :=
  alookup ecm.entity_components e

end EntityComponentManager

/-- The interest bookkeeping a system keeps behind `SystemBase`'s
`add_entity`/`remove_entity`.  The repository has two implementations: every
system except `CameraFocusSystem` keeps a `HashSet<Entity>` field `entities`
that `add_entity` inserts into and `remove_entity` removes from; the
`CameraFocusSystem` (components_systems.rs:615-650) keeps a single
`Option<Entity>` field that `add_entity` overwrites (last write wins) and
`remove_entity` clears only when it currently holds exactly that entity. -/
inductive InterestStore where
  | set (entities : Finset Entity)
  | slot (entity : Option Entity)
deriving DecidableEq

namespace InterestStore

/-- `SystemBase::add_entity`: `HashSet::insert` for the set kind, an
unconditional overwrite for the single-slot kind. -/
def add_entity : InterestStore → Entity → InterestStore
  | .set entities, e => .set (insert e entities)
  | .slot _, e => .slot (some e)

/-- `SystemBase::remove_entity`: `HashSet::remove` for the set kind, a
conditional clear for the single-slot kind. -/
def remove_entity : InterestStore → Entity → InterestStore
  | .set entities, e => .set (entities.erase e)
  | .slot s, e => .slot (if s = some e then none else s)

/-- Membership in a system's interest bookkeeping. -/
def memb : InterestStore → Entity → Prop
  | .set entities, e => e ∈ entities
  | .slot s, e => s = some e

instance : ∀ (st : InterestStore) (e : Entity), Decidable (st.memb e)
  | .set entities, e => inferInstanceAs (Decidable (e ∈ entities))
  | .slot s, e => inferInstanceAs (Decidable (s = some e))

end InterestStore

/-- The kind of interest bookkeeping a system instance uses, with the empty
store every system constructor in the repository starts from (`add_system`
then backfills it). -/
inductive StoreKind where
  | set
  | slot
deriving DecidableEq

def StoreKind.empty : StoreKind → InterestStore
  | .set => .set ∅
  | .slot => .slot none

/-- The `SystemBase` bookkeeping state of a registered system: its required
component-type set (fixed at construction) and its interest store, the
target of the `add_entity`/`remove_entity` calls the `Registry` makes. -/
structure SystemSt where
  required_components : Finset Nat
  store : InterestStore
deriving DecidableEq

structure Registry where
  ec_manager : EntityComponentManager
  systems : List (Nat × SystemSt)
deriving DecidableEq

/-- Insert into a duplicate-free list, mirroring `HashSet::insert` for the
wrapper's changed-entity set. -/
def insertIfAbsent (l : List Entity) (e : Entity) : List Entity :=
  if e ∈ l then l else e :: l

/-- One call a system's `run` body can make on the `EntityComponentWrapper`
view.  Read-only calls and writes through `get_component_mut` are omitted:
they neither mark the entity changed nor affect liveness or tag sets, so no
claim under study depends on them.  A body's data flow (for example adding a
component to an entity it just created) is captured because the commands
carry the concrete `Entity` values arising in that execution. -/
inductive WCmd where
  | createE
  | removeE (e : Entity)
  | addComp (e : Entity) (ct : Nat) (v : Val)
  | removeComp (e : Entity) (ct : Nat)
deriving DecidableEq, Repr

namespace Registry

def new : Registry := ⟨EntityComponentManager.new, []⟩

def is_alive (r : Registry) (e : Entity) : Prop := r.ec_manager.is_alive e

def is_dead (r : Registry) (e : Entity) : Prop := r.ec_manager.is_dead e

instance (r : Registry) (e : Entity) : Decidable (r.is_alive e) :=
  inferInstanceAs (Decidable (_ = _))

instance (r : Registry) (e : Entity) : Decidable (r.is_dead e) :=
  inferInstanceAs (Decidable (_ ≠ _))

/-- The tag set currently recorded for a handle (empty when the handle has no
tag-map entry). -/
def tags (r : Registry) (e : Entity) : Finset Nat :=
  (alookup r.ec_manager.entity_components e).getD ∅

/-- `Registry::create_entity`: no interest-set updates are performed. -/
def create_entity (r : Registry) : Entity × Registry :=
  let p := r.ec_manager.create_entity
  (p.1, ⟨p.2, r.systems⟩)

/-- `Registry::remove_entity`: every system drops the handle first, then the
manager removal runs (which may fail on a stale handle). -/
def remove_entity (r : Registry) (e : Entity) : Except EcsError Unit × Registry :=
  let systems' := r.systems.map fun p =>
    (p.1, { p.2 with store := p.2.store.remove_entity e })
  let q := r.ec_manager.remove_entity e
  (q.1, ⟨q.2, systems'⟩)

/-- The interest-update loop of `Registry::add_component`: each iteration
unwraps `has_components` (so `none` models that panic) and adds the entity to
every system whose required set is now satisfied. -/
def addInterested (ecm : EntityComponentManager) (e : Entity) :
    List (Nat × SystemSt) → Option (List (Nat × SystemSt))
  | [] => some []
  | p :: rest =>
      match ecm.has_components e with
      | none => none
      | some tags =>
          match addInterested ecm e rest with
          | none => none
          | some rest' =>
              some ((p.1,
                if p.2.required_components ⊆ tags then
                  { p.2 with store := p.2.store.add_entity e }
                else p.2) :: rest')

/-- The interest-update loop of `Registry::remove_component`: removes the
entity from every system whose required set is no longer satisfied. -/
def removeUninterested (ecm : EntityComponentManager) (e : Entity) :
    List (Nat × SystemSt) → Option (List (Nat × SystemSt))
  | [] => some []
  | p :: rest =>
      match ecm.has_components e with
      | none => none
      | some tags =>
          match removeUninterested ecm e rest with
          | none => none
          | some rest' =>
              some ((p.1,
                if ¬ p.2.required_components ⊆ tags then
                  { p.2 with store := p.2.store.remove_entity e }
                else p.2) :: rest')

/-- `Registry::add_component`: delegate to the manager; on success run the
interest-update loop against the post-mutation state. -/
def add_component (r : Registry) (e : Entity) (ct : Nat) (v : Val) :
    Option (Except EcsError Unit × Registry) :=
  match r.ec_manager.add_component e ct v with
  | none => none
  | some (.error err, ecm') => some (.error err, ⟨ecm', r.systems⟩)
  | some (.ok _, ecm') =>
      match addInterested ecm' e r.systems with
      | none => none
      | some systems' => some (.ok (), ⟨ecm', systems'⟩)

/-- `Registry::remove_component`. -/
def remove_component (r : Registry) (e : Entity) (ct : Nat) :
    Option (Except EcsError Unit × Registry) :=
  match r.ec_manager.remove_component e ct with
  | none => none
  | some (.error err, ecm') => some (.error err, ⟨ecm', r.systems⟩)
  | some (.ok _, ecm') =>
      match removeUninterested ecm' e r.systems with
      | none => none
      | some systems' => some (.ok (), ⟨ecm', systems'⟩)

def get_component (r : Registry) (e : Entity) (ct : Nat) :
    Except EcsError (Option Val) :=
  r.ec_manager.get_component e ct

def get_component_mut (r : Registry) (e : Entity) (ct : Nat) :
    Except EcsError (Option Val) :=
  r.ec_manager.get_component_mut e ct

/-- The backfill scan of `Registry::add_system`: iterate the existing
entities (in the tag map's iteration order) and call the new system's
`add_entity` on each one whose tag set satisfies the required set. -/
def backfill (required : Finset Nat) :
    InterestStore → List (Entity × Finset Nat) → InterestStore
  | st, [] => st
  | st, (e, tags) :: rest =>
      backfill required (if required ⊆ tags then st.add_entity e else st) rest

/-- `Registry::add_system` for a fresh system instance with required set
`required` and interest-store kind `k`, registered under the system-type tag
`sid`. -/
def add_system (r : Registry) (sid : Nat) (required : Finset Nat)
    (k : StoreKind) : Registry :=
  ⟨r.ec_manager,
    ainsert r.systems sid
      ⟨required, backfill required k.empty r.ec_manager.entity_components⟩⟩

/-- `Registry::remove_system`. -/
def remove_system (r : Registry) (sid : Nat) : Registry :=
  ⟨r.ec_manager, aerase r.systems sid⟩

end Registry

/-- Running a list of wrapper commands: the `EntityComponentWrapper` methods
insert the touched entity into `changed_entities` and delegate.  `none`
propagates a panic inside a delegated call. -/
def runWplain (ecm : EntityComponentManager) (ch : List Entity) :
    List WCmd → Option (EntityComponentManager × List Entity)
  | [] => some (ecm, ch)
  | .createE :: rest =>
      let p := ecm.create_entity
      runWplain p.2 (insertIfAbsent ch p.1) rest
  | .removeE e :: rest =>
      let q := ecm.remove_entity e
      runWplain q.2 (insertIfAbsent ch e) rest
  | .addComp e ct v :: rest =>
      match ecm.add_component e ct v with
      | none => none
      | some q => runWplain q.2 (insertIfAbsent ch e) rest
  | .removeComp e ct :: rest =>
      match ecm.remove_component e ct with
      | none => none
      | some q => runWplain q.2 (insertIfAbsent ch e) rest

/-- The inner loop of the reconciliation pass of `Registry::run_system`: for
one changed entity, every system re-evaluates membership; each iteration
unwraps `has_components`, so a changed entity without a tag-map entry (for
example one the run removed) panics as soon as there is a system to visit. -/
def reconcileSys (ecm : EntityComponentManager) (e : Entity) :
    List (Nat × SystemSt) → Option (List (Nat × SystemSt))
  | [] => some []
  | p :: rest =>
      match ecm.has_components e with
      | none => none
      | some tags =>
          match reconcileSys ecm e rest with
          | none => none
          | some rest' =>
              some ((p.1,
                { p.2 with store :=
                    if p.2.required_components ⊆ tags then
                      p.2.store.add_entity e
                    else p.2.store.remove_entity e }) :: rest')

/-- The outer loop of the reconciliation pass, over the changed entities. -/
def reconcile (ecm : EntityComponentManager) :
    List Entity → List (Nat × SystemSt) → Option (List (Nat × SystemSt))
  | [], systems => some systems
  | e :: rest, systems =>
      match reconcileSys ecm e systems with
      | none => none
      | some systems' => reconcile ecm rest systems'

/-- `Registry::run_system`, with the system's run body given as the list of
wrapper commands it performs: `NoSuchSystem` when the system-type tag is not
registered; otherwise run the body through the change-tracking wrapper and
reconcile every touched entity against every system.  `none` models a panic
during the body or during reconciliation. -/
def Registry.run_system (r : Registry) (sid : Nat) (cmds : List WCmd) :
    Option (Except EcsError Registry) :=
  match alookup r.systems sid with
  | none => some (.error .NoSuchSystem)
  | some _ =>
      match runWplain r.ec_manager [] cmds with
      | none => none
      | some (ecm', ch) =>
          match reconcile ecm' ch r.systems with
          | none => none
          | some systems' => some (.ok ⟨ecm', systems'⟩)

/-- `runWplain`, additionally threading the ghost history `issued` of all
handles `create_entity` has ever returned.  `Entity`'s fields are private in
the source and the struct has no public constructor, so every handle a run
body can pass to a wrapper method is one of the issued ones; `none` is
returned for command lists that use a never-issued handle (not an execution
of the program) or that panic. -/
def runW (ecm : EntityComponentManager) (ch issued : List Entity) :
    List WCmd → Option (EntityComponentManager × List Entity × List Entity)
  | [] => some (ecm, ch, issued)
  | .createE :: rest =>
      let p := ecm.create_entity
      runW p.2 (insertIfAbsent ch p.1) (p.1 :: issued) rest
  | .removeE e :: rest =>
      if e ∈ issued then
        let q := ecm.remove_entity e
        runW q.2 (insertIfAbsent ch e) issued rest
      else none
  | .addComp e ct v :: rest =>
      if e ∈ issued then
        match ecm.add_component e ct v with
        | none => none
        | some q => runW q.2 (insertIfAbsent ch e) issued rest
      else none
  | .removeComp e ct :: rest =>
      if e ∈ issued then
        match ecm.remove_component e ct with
        | none => none
        | some q => runW q.2 (insertIfAbsent ch e) issued rest
      else none

/-- Executions of the program through the `Registry` public interface,
starting from the state `r0` with issued-handle history `is0`.  Each
constructor is one completed `Registry` operation (operations returning an
`EcsError` complete too; operations whose model is `none` panicked and have
no completed successor state).  Entity arguments are drawn from the issued
history, since the source's `Entity` values are unforgeable. -/
inductive ReachFrom :
    Registry → List Entity → Registry → List Entity → Prop where
  | refl {r0 : Registry} {is0 : List Entity} : ReachFrom r0 is0 r0 is0
  | createE {r0 is0 r is} (h : ReachFrom r0 is0 r is) :
      ReachFrom r0 is0 r.create_entity.2 (r.create_entity.1 :: is)
  | removeE {r0 is0 r is e} (h : ReachFrom r0 is0 r is) (he : e ∈ is) :
      ReachFrom r0 is0 (r.remove_entity e).2 is
  | addComp {r0 is0 r is e ct v res r'} (h : ReachFrom r0 is0 r is)
      (he : e ∈ is) (hs : r.add_component e ct v = some (res, r')) :
      ReachFrom r0 is0 r' is
  | removeComp {r0 is0 r is e ct res r'} (h : ReachFrom r0 is0 r is)
      (he : e ∈ is) (hs : r.remove_component e ct = some (res, r')) :
      ReachFrom r0 is0 r' is
  | addSystem {r0 is0 r is sid required k} (h : ReachFrom r0 is0 r is) :
      ReachFrom r0 is0 (r.add_system sid required k) is
  | removeSystem {r0 is0 r is sid} (h : ReachFrom r0 is0 r is) :
      ReachFrom r0 is0 (r.remove_system sid) is
  | runSystem {r0 is0 r is sid st cmds ecm' ch is' systems'}
      (h : ReachFrom r0 is0 r is)
      (hsys : alookup r.systems sid = some st)
      (hrun : runW r.ec_manager [] is cmds = some (ecm', ch, is'))
      (hrec : reconcile ecm' ch r.systems = some systems') :
      ReachFrom r0 is0 ⟨ecm', systems'⟩ is'

/-- Reachable states of a `Registry` from `Registry::new`, with the history
of issued handles. -/
def Reach (r : Registry) (is : List Entity) : Prop :=
  ReachFrom Registry.new [] r is

/-- Reachable states of a bare `EntityManager` from `EntityManager::new`,
with the history of handles its `create_entity` returned; `remove_entity` may
be called with any previously issued handle (stale ones included). -/
inductive EMReach : EntityManager → List Entity → Prop where
  | init : EMReach EntityManager.new []
  | create {em is} (h : EMReach em is) :
      EMReach em.create_entity.2 (em.create_entity.1 :: is)
  | removeOk {em is e em'} (h : EMReach em is) (he : e ∈ is)
      (hs : em.remove_entity e = .ok em') : EMReach em' is

/-- The event bus of `src/src/event_bus.rs`.  Event types and handler
identities are modelled as `Nat`; per event type the bus stores the ordered
subscriber list. -/
structure EventBus where
  handlers : List (Nat × List Nat)
deriving DecidableEq, Repr

namespace EventBus

def new : EventBus := ⟨[]⟩

/-- `EventBus::add_handler`: start a singleton list for a first subscriber,
otherwise push at the end. -/
def add_handler (bus : EventBus) (t h : Nat) : EventBus :=
  match alookup bus.handlers t with
  | none => ⟨ainsert bus.handlers t [h]⟩
  | some hs => ⟨ainsert bus.handlers t (hs ++ [h])⟩

/-- The subscriber list `dispatch` iterates for event type `t` (empty when no
entry exists). -/
def handlersFor (bus : EventBus) (t : Nat) : List Nat :=
  (alookup bus.handlers t).getD []

/-- `EventBus::dispatch`: invoke, in stored order, each subscriber for the
event type on the mutable component view; no entry means no invocation.
`interp h` is the state transformation handler `h`'s `handle_any` performs. -/
def dispatch {σ : Type} (interp : Nat → σ → σ) (bus : EventBus) (t : Nat)
    (s : σ) : σ :=
  match alookup bus.handlers t with
  | none => s
  | some hs => hs.foldl (fun st h => interp h st) s

/-- A bus built by a sequence of `add_handler` subscriptions. -/
def mkBus (subs : List (Nat × Nat)) : EventBus :=
  subs.foldl (fun b p => b.add_handler p.1 p.2) EventBus.new

end EventBus

/-- The subscriptions for event type `t` in a subscription history, in
order. -/
def subsFor (t : Nat) : List (Nat × Nat) → List Nat
  | [] => []
  | p :: rest => if p.1 = t then p.2 :: subsFor t rest else subsFor t rest

section AssocLemmas

variable {κ β : Type} [DecidableEq κ]

theorem alookup_ainsert_self (l : List (κ × β)) (k : κ) (v : β) :
    alookup (ainsert l k v) k = some v := by
  induction l with
  | nil => simp [ainsert, alookup]
  | cons p rest ih =>
      by_cases h : k = p.1
      · simp [ainsert, h, alookup]
      · simp [ainsert, h, alookup, ih]

theorem alookup_ainsert_ne (l : List (κ × β)) (k q : κ) (v : β) (h : q ≠ k) :
    alookup (ainsert l k v) q = alookup l q := by
  induction l with
  | nil => simp [ainsert, alookup, h]
  | cons p rest ih =>
      by_cases hk : k = p.1
      · subst hk
        simp [ainsert, alookup, h, ih]
      · by_cases hq : q = p.1
        · simp [ainsert, alookup, hk, hq]
        · simp [ainsert, alookup, hk, hq, ih]

theorem ainsert_lookup_self (l : List (κ × β)) (k : κ) (v : β)
    (h : alookup l k = some v) : ainsert l k v = l := by
  induction l with
  | nil => simp [alookup] at h
  | cons p rest ih =>
      by_cases hk : k = p.1
      · subst hk
        simp [alookup] at h
        subst h
        simp [ainsert]
      · simp [alookup, hk] at h
        simp [ainsert, hk, ih h]

theorem aerase_lookup_none (l : List (κ × β)) (k : κ)
    (h : alookup l k = none) : aerase l k = l := by
  induction l with
  | nil => simp [aerase]
  | cons p rest ih =>
      by_cases hk : k = p.1
      · simp [alookup, hk] at h
      · simp [alookup, hk] at h
        simp [aerase, hk, ih h]

theorem alookup_aerase_ne (l : List (κ × β)) (k q : κ) (h : q ≠ k) :
    alookup (aerase l k) q = alookup l q := by
  induction l with
  | nil => simp [aerase]
  | cons p rest ih =>
      by_cases hk : k = p.1
      · subst hk
        simp [aerase, alookup, h]
      · by_cases hq : q = p.1
        · simp [aerase, alookup, hk, hq]
        · simp [aerase, alookup, hk, hq, ih]

theorem alookup_mem {l : List (κ × β)} {k : κ} {v : β}
    (h : alookup l k = some v) : (k, v) ∈ l := by
  induction l with
  | nil => simp [alookup] at h
  | cons p rest ih =>
      by_cases hk : k = p.1
      · subst hk
        simp [alookup] at h
        subst h
        exact List.mem_cons_self _ _
      · simp [alookup, hk] at h
        exact List.mem_cons_of_mem _ (ih h)

theorem alookup_aerase_self (l : List (κ × β)) (k : κ)
    (h : (l.map Prod.fst).Nodup) : alookup (aerase l k) k = none := by
  induction l with
  | nil => simp [aerase, alookup]
  | cons p rest ih =>
      simp only [List.map_cons, List.nodup_cons] at h
      by_cases hk : k = p.1
      · subst hk
        simp only [aerase, if_pos rfl]
        cases hr : alookup rest p.1 with
        | none => exact hr
        | some v =>
            exact absurd (List.mem_map_of_mem Prod.fst (alookup_mem hr)) h.1
      · simp [aerase, hk, alookup, ih h.2]

theorem alookup_isSome_iff (l : List (κ × β)) (k : κ) :
    (alookup l k).isSome ↔ k ∈ l.map Prod.fst := by
  induction l with
  | nil => simp [alookup]
  | cons p rest ih =>
      by_cases hk : k = p.1
      · simp [alookup, hk]
      · simp [alookup, hk, ih]

theorem alookup_of_mem_nodup {l : List (κ × β)} {k : κ} {v : β}
    (hn : (l.map Prod.fst).Nodup) (h : (k, v) ∈ l) : alookup l k = some v := by
  induction l with
  | nil => simp at h
  | cons p rest ih =>
      simp only [List.map_cons, List.nodup_cons] at hn
      rcases List.mem_cons.mp h with h | h
      · rw [← h]
        simp [alookup]
      · have hk : k ≠ p.1 := by
          intro hkp
          exact hn.1 (hkp ▸ List.mem_map_of_mem Prod.fst h)
        simp [alookup, hk, ih hn.2 h]

theorem mem_keys_ainsert (l : List (κ × β)) (k q : κ) (v : β) :
    q ∈ (ainsert l k v).map Prod.fst ↔ q = k ∨ q ∈ l.map Prod.fst := by
  induction l with
  | nil => simp [ainsert]
  | cons p rest ih =>
      by_cases hk : k = p.1
      · subst hk
        simp [ainsert]
      · simp only [ainsert, if_neg hk, List.map_cons, List.mem_cons, ih]
        tauto

theorem nodup_keys_ainsert (l : List (κ × β)) (k : κ) (v : β)
    (h : (l.map Prod.fst).Nodup) : ((ainsert l k v).map Prod.fst).Nodup := by
  induction l with
  | nil => simp [ainsert]
  | cons p rest ih =>
      simp only [List.map_cons, List.nodup_cons] at h
      by_cases hk : k = p.1
      · subst hk
        simpa [ainsert] using h
      · simp only [ainsert, if_neg hk, List.map_cons, List.nodup_cons]
        refine ⟨fun hm => ?_, ih h.2⟩
        rcases (mem_keys_ainsert rest k p.1 v).mp hm with h1 | h1
        · exact hk h1.symm
        · exact h.1 h1

theorem mem_keys_aerase {l : List (κ × β)} {k q : κ}
    (h : q ∈ (aerase l k).map Prod.fst) : q ∈ l.map Prod.fst := by
  induction l with
  | nil => simpa [aerase] using h
  | cons p rest ih =>
      by_cases hk : k = p.1
      · simp only [aerase, if_pos hk] at h
        exact List.mem_cons_of_mem _ h
      · simp only [aerase, if_neg hk, List.map_cons, List.mem_cons] at h
        rcases h with h | h
        · simp [h]
        · exact List.mem_cons_of_mem _ (ih h)

theorem nodup_keys_aerase (l : List (κ × β)) (k : κ)
    (h : (l.map Prod.fst).Nodup) : ((aerase l k).map Prod.fst).Nodup := by
  induction l with
  | nil => simpa [aerase] using h
  | cons p rest ih =>
      simp only [List.map_cons, List.nodup_cons] at h
      by_cases hk : k = p.1
      · simpa [aerase, hk] using h.2
      · simp only [aerase, if_neg hk, List.map_cons, List.nodup_cons]
        exact ⟨fun hm => h.1 (mem_keys_aerase hm), ih h.2⟩

theorem alookup_map_snd {γ : Type} (l : List (κ × β)) (f : β → γ) (q : κ) :
    alookup (l.map fun p => (p.1, f p.2)) q = (alookup l q).map f := by
  induction l with
  | nil => simp [alookup]
  | cons p rest ih =>
      by_cases hk : q = p.1
      · simp [alookup, hk]
      · simp [alookup, hk, ih]

theorem list_map_eq_self {α : Type} {l : List α} {f : α → α}
    (h : ∀ a ∈ l, f a = a) : l.map f = l := by
  induction l with
  | nil => rfl
  | cons a rest ih =>
      simp only [List.map_cons, h a (List.mem_cons_self a rest),
        ih fun b hb => h b (List.mem_cons_of_mem a hb)]

end AssocLemmas

section GetDLemmas

theorem getD_append_replicate_zero (l : List Nat) (n i : Nat) :
    (l ++ List.replicate n 0).getD i 0 = l.getD i 0 := by
  rw [List.getD_eq_getElem?_getD, List.getD_eq_getElem?_getD]
  by_cases h : i < l.length
  · rw [List.getElem?_append_left h]
  · push_neg at h
    rw [List.getElem?_append_right h, List.getElem?_replicate]
    rw [List.getElem?_eq_none h]
    by_cases h2 : i - l.length < n <;> simp [h2]

theorem getD_set_eq (l : List Nat) (i v : Nat) (h : i < l.length) :
    (l.set i v).getD i 0 = v := by
  rw [List.getD_eq_getElem?_getD, List.getElem?_set_eq h]
  rfl

theorem getD_set_ne (l : List Nat) (i j v : Nat) (h : j ≠ i) :
    (l.set i v).getD j 0 = l.getD j 0 := by
  rw [List.getD_eq_getElem?_getD, List.getElem?_set_ne (Ne.symm h),
    ← List.getD_eq_getElem?_getD]

end GetDLemmas

namespace EntityManager

theorem create_gens (em : EntityManager) :
    em.create_entity.2.generations = em.generations := by
  unfold create_entity
  cases em.free_entity_ids <;> rfl

theorem create_alive_generation (em : EntityManager) (id : Nat) :
    em.create_entity.2.alive_generation id = em.alive_generation id := by
  unfold alive_generation
  rw [create_gens]

theorem create_fst (em : EntityManager) :
    em.create_entity.1 =
      ⟨em.create_entity.1.id, em.alive_generation em.create_entity.1.id⟩ := by
  unfold create_entity
  cases em.free_entity_ids <;> rfl

theorem bumpAt_getD_eq (l : List Nat) (i : Nat) :
    (bumpAt l i).getD i 0 = l.getD i 0 + 1 := by
  unfold bumpAt
  by_cases hlen : l.length ≤ i
  · simp only [if_pos hlen]
    have hlt : i < (l ++ List.replicate (i + VEC_RESIZE_MARGIN - l.length) 0).length := by
      simp only [List.length_append, List.length_replicate, VEC_RESIZE_MARGIN]
      omega
    rw [getD_set_eq _ _ _ hlt, getD_append_replicate_zero]
  · simp only [if_neg hlen]
    push_neg at hlen
    rw [getD_set_eq _ _ _ hlen]

theorem bumpAt_getD_ne (l : List Nat) (i j : Nat) (h : j ≠ i) :
    (bumpAt l i).getD j 0 = l.getD j 0 := by
  unfold bumpAt
  by_cases hlen : l.length ≤ i
  · simp only [if_pos hlen]
    rw [getD_set_ne _ _ _ _ h, getD_append_replicate_zero]
  · simp only [if_neg hlen]
    rw [getD_set_ne _ _ _ _ h]

theorem not_dead_iff_alive (em : EntityManager) (e : Entity) :
    ¬ em.is_dead e ↔ em.is_alive e := by
  unfold is_dead is_alive
  omega

/-- The successor state of a successful `remove_entity`, field by field. -/
theorem remove_ok_spec {em : EntityManager} {e : Entity} {em' : EntityManager}
    (h : em.remove_entity e = .ok em') :
    em.is_alive e ∧
    em'.alive_generation e.id = em.alive_generation e.id + 1 ∧
    (∀ id, id ≠ e.id → em'.alive_generation id = em.alive_generation id) ∧
    em'.free_entity_ids = e.id :: em.free_entity_ids ∧
    em'.next_entity_id = em.next_entity_id := by
  unfold remove_entity at h
  by_cases hd : em.is_dead e
  · simp [hd] at h
  · rw [if_neg hd] at h
    injection h with h
    subst h
    refine ⟨(not_dead_iff_alive em e).mp hd, ?_, ?_, rfl, rfl⟩
    · exact bumpAt_getD_eq _ _
    · exact fun id hid => bumpAt_getD_ne _ _ _ hid

theorem remove_ok_of_alive {em : EntityManager} {e : Entity}
    (h : em.is_alive e) : ∃ em', em.remove_entity e = .ok em' := by
  unfold remove_entity
  rw [if_neg ((not_dead_iff_alive em e).mpr h)]
  exact ⟨_, rfl⟩

theorem remove_error_of_dead {em : EntityManager} {e : Entity}
    (h : em.is_dead e) : em.remove_entity e = .error .DeadEntity := by
  unfold remove_entity
  simp [h]

/-- The recorded generation of every id never decreases across a
`remove_entity` call, whatever its result. -/
theorem remove_alive_generation_le (em : EntityManager) (e : Entity) (id : Nat) :
    ∀ em', em.remove_entity e = .ok em' →
      em.alive_generation id ≤ em'.alive_generation id := by
  intro em' h
  obtain ⟨-, h1, h2, -, -⟩ := remove_ok_spec h
  by_cases hid : id = e.id
  · subst hid
    omega
  · rw [h2 id hid]

end EntityManager

/-- Allocator invariant, relative to the ghost history `issued` of handles
returned by `create_entity`. -/
structure EMInv (em : EntityManager) (issued : List Entity) : Prop where
  issued_lt : ∀ e ∈ issued, e.id < em.next_entity_id
  free_nodup : em.free_entity_ids.Nodup
  free_lt : ∀ id ∈ em.free_entity_ids, id < em.next_entity_id
  free_fresh : ∀ id ∈ em.free_entity_ids, ∀ e ∈ issued, e.id = id →
      e.generation < em.alive_generation id
  gen_le : ∀ e ∈ issued, e.generation ≤ em.alive_generation e.id

theorem emInv_new : EMInv EntityManager.new [] := by
  constructor <;> simp [EntityManager.new]

/-- `create_entity` preserves the allocator invariant; moreover the returned
handle is alive in the successor state and distinct from every handle issued
so far. -/
theorem emInv_create {em : EntityManager} {is : List Entity}
    (h : EMInv em is) :
    EMInv em.create_entity.2 (em.create_entity.1 :: is) ∧
    em.create_entity.1 ∉ is ∧
    em.create_entity.2.is_alive em.create_entity.1 := by
  cases hf : em.free_entity_ids with
  | nil =>
      have hc : em.create_entity =
          (⟨em.next_entity_id, em.alive_generation em.next_entity_id⟩,
            { em with next_entity_id := em.next_entity_id + 1 }) := by
        unfold EntityManager.create_entity
        rw [hf]
      rw [hc]
      refine ⟨⟨?_, ?_, ?_, ?_, ?_⟩, ?_, ?_⟩
      · intro x hx
        rcases List.mem_cons.mp hx with hx | hx
        · subst hx
          exact Nat.lt_succ_self _
        · exact Nat.lt_succ_of_lt (h.issued_lt x hx)
      · exact h.free_nodup
      · exact fun id hid => Nat.lt_succ_of_lt (h.free_lt id hid)
      · intro id hid x hx hxid
        rcases List.mem_cons.mp hx with hx | hx
        · subst hx
          exact absurd (hxid ▸ h.free_lt id hid) (by simp)
        · exact h.free_fresh id hid x hx hxid
      · intro x hx
        rcases List.mem_cons.mp hx with hx | hx
        · subst hx
          exact Nat.le_refl _
        · exact h.gen_le x hx
      · intro hmem
        exact absurd (h.issued_lt _ hmem) (by simp)
      · unfold EntityManager.is_alive EntityManager.alive_generation
        rfl
  | cons id0 rest =>
      have hc : em.create_entity =
          (⟨id0, em.alive_generation id0⟩,
            { em with free_entity_ids := rest }) := by
        unfold EntityManager.create_entity
        rw [hf]
      have hid0 : id0 ∈ em.free_entity_ids := by
        rw [hf]
        exact List.mem_cons_self _ _
      have hnodup := h.free_nodup
      rw [hf, List.nodup_cons] at hnodup
      rw [hc]
      refine ⟨⟨?_, hnodup.2, ?_, ?_, ?_⟩, ?_, ?_⟩
      · intro x hx
        rcases List.mem_cons.mp hx with hx | hx
        · subst hx
          exact h.free_lt id0 hid0
        · exact h.issued_lt x hx
      · intro id hid
        refine h.free_lt id ?_
        rw [hf]
        exact List.mem_cons_of_mem _ hid
      · intro id hid x hx hxid
        rcases List.mem_cons.mp hx with hx | hx
        · subst hx
          simp only at hxid
          exact absurd (hxid ▸ hid) hnodup.1
        · refine h.free_fresh id ?_ x hx hxid
          rw [hf]
          exact List.mem_cons_of_mem _ hid
      · intro x hx
        rcases List.mem_cons.mp hx with hx | hx
        · subst hx
          exact Nat.le_refl _
        · exact h.gen_le x hx
      · intro hmem
        exact absurd rfl
          (Nat.ne_of_lt (h.free_fresh id0 hid0 _ hmem rfl))
      · unfold EntityManager.is_alive EntityManager.alive_generation
        rfl

/-- A successful `remove_entity` on an issued handle preserves the allocator
invariant. -/
theorem emInv_remove {em : EntityManager} {is : List Entity} {e : Entity}
    {em' : EntityManager} (h : EMInv em is) (he : e ∈ is)
    (hs : em.remove_entity e = .ok em') : EMInv em' is := by
  obtain ⟨halive, hgen, hother, hfree, hnext⟩ := EntityManager.remove_ok_spec hs
  have hnotfree : e.id ∉ em.free_entity_ids := by
    intro hmem
    exact absurd halive (Nat.ne_of_lt (h.free_fresh e.id hmem e he rfl))
  constructor
  · intro x hx
    rw [hnext]
    exact h.issued_lt x hx
  · rw [hfree]
    exact List.nodup_cons.mpr ⟨hnotfree, h.free_nodup⟩
  · intro id hid
    rw [hnext]
    rw [hfree] at hid
    rcases List.mem_cons.mp hid with hid | hid
    · subst hid
      exact h.issued_lt e he
    · exact h.free_lt id hid
  · intro id hid x hx hxid
    rw [hfree] at hid
    rcases List.mem_cons.mp hid with hid | hid
    · subst hid
      rw [hgen]
      have := h.gen_le x hx
      rw [hxid] at this
      unfold EntityManager.is_alive at halive
      omega
    · have hne : id ≠ e.id := fun heq => hnotfree (heq ▸ hid)
      rw [hother id hne]
      exact h.free_fresh id hid x hx hxid
  · intro x hx
    by_cases hxid : x.id = e.id
    · rw [hxid, hgen]
      have := h.gen_le x hx
      rw [hxid] at this
      omega
    · rw [hother x.id hxid]
      exact h.gen_le x hx

theorem emReach_inv {em : EntityManager} {is : List Entity}
    (h : EMReach em is) : EMInv em is := by
  induction h with
  | init => exact emInv_new
  | create _ ih => exact (emInv_create ih).1
  | removeOk _ he hs ih => exact emInv_remove ih he hs

/-- Manager invariant: allocator invariant, well-formed tag map whose keys
are exactly the live issued handles, and every recorded tag backed by a
pool. -/
structure ECInv (ecm : EntityComponentManager) (is : List Entity) : Prop where
  em : EMInv ecm.entity_manager is
  keys_nodup : (ecm.entity_components.map Prod.fst).Nodup
  entry_iff : ∀ e, (alookup ecm.entity_components e).isSome ↔
      (e ∈ is ∧ ecm.is_alive e)
  tags_pooled : ∀ e tags, alookup ecm.entity_components e = some tags →
      ∀ ct ∈ tags, (alookup ecm.component_pools ct).isSome

theorem ecInv_new : ECInv EntityComponentManager.new [] := by
  refine ⟨emInv_new, List.nodup_nil, ?_, ?_⟩
  · intro e
    simp [EntityComponentManager.new, alookup]
  · intro e tags h
    simp [EntityComponentManager.new, alookup] at h

namespace EntityComponentManager

theorem alive_of_mem_entry {ecm : EntityComponentManager} {is : List Entity}
    (inv : ECInv ecm is) {e : Entity} {tags : Finset Nat}
    (h : alookup ecm.entity_components e = some tags) :
    e ∈ is ∧ ecm.is_alive e :=
  (inv.entry_iff e).mp (by simp [h])

theorem entry_of_alive {ecm : EntityComponentManager} {is : List Entity}
    (inv : ECInv ecm is) {e : Entity} (he : e ∈ is) (ha : ecm.is_alive e) :
    ∃ tags, alookup ecm.entity_components e = some tags := by
  have := (inv.entry_iff e).mpr ⟨he, ha⟩
  cases h : alookup ecm.entity_components e with
  | none => rw [h] at this; simp at this
  | some tags => exact ⟨tags, rfl⟩

theorem entry_none_of_dead {ecm : EntityComponentManager} {is : List Entity}
    (inv : ECInv ecm is) {e : Entity} (hd : ecm.is_dead e) :
    alookup ecm.entity_components e = none := by
  cases h : alookup ecm.entity_components e with
  | none => rfl
  | some tags =>
      have := (alive_of_mem_entry inv h).2
      unfold is_alive EntityManager.is_alive at this
      unfold is_dead EntityManager.is_dead at hd
      omega

/-- `create_entity` at the manager level: invariant preservation plus the
shape of the successor state. -/
theorem ecInv_create {ecm : EntityComponentManager} {is : List Entity}
    (inv : ECInv ecm is) :
    ECInv ecm.create_entity.2 (ecm.create_entity.1 :: is) ∧
    ecm.create_entity.1 ∉ is ∧
    ecm.create_entity.2.is_alive ecm.create_entity.1 ∧
    alookup ecm.create_entity.2.entity_components ecm.create_entity.1 =
      some ∅ ∧
    (∀ x, x ≠ ecm.create_entity.1 →
      alookup ecm.create_entity.2.entity_components x =
        alookup ecm.entity_components x) ∧
    ecm.create_entity.2.component_pools = ecm.component_pools ∧
    ecm.create_entity.2.entity_manager = ecm.entity_manager.create_entity.2 := by
  obtain ⟨hinv', hfresh, halive⟩ := emInv_create inv.em
  set e := ecm.entity_manager.create_entity.1 with hee
  have hcr : ecm.create_entity =
      (e, ⟨ecm.entity_manager.create_entity.2,
        ainsert ecm.entity_components e ∅, ecm.component_pools⟩) := rfl
  have halive_same : ∀ x : Entity,
      ecm.entity_manager.create_entity.2.is_alive x ↔
        ecm.entity_manager.is_alive x := by
    intro x
    unfold EntityManager.is_alive
    rw [EntityManager.create_alive_generation]
  have hnokey : alookup ecm.entity_components e = none := by
    cases hx : alookup ecm.entity_components e with
    | none => rfl
    | some tags => exact absurd (alive_of_mem_entry inv hx).1 hfresh
  rw [hcr]
  refine ⟨⟨hinv', ?_, ?_, ?_⟩, hfresh, halive, ?_, ?_, rfl, rfl⟩
  · exact nodup_keys_ainsert _ _ _ inv.keys_nodup
  · intro x
    by_cases hx : x = e
    · subst hx
      rw [alookup_ainsert_self]
      simpa [is_alive] using halive
    · rw [alookup_ainsert_ne _ _ _ _ hx]
      have := inv.entry_iff x
      simp only [is_alive] at this ⊢
      rw [this, halive_same x]
      simp [List.mem_cons, hx]
  · intro x tags hx ct hct
    by_cases hxe : x = e
    · subst hxe
      rw [alookup_ainsert_self] at hx
      injection hx with hx
      subst hx
      simp at hct
    · rw [alookup_ainsert_ne _ _ _ _ hxe] at hx
      exact inv.tags_pooled x tags hx ct hct
  · exact alookup_ainsert_self _ _ _
  · intro x hx
    exact alookup_ainsert_ne _ _ _ _ hx

/-- `remove_entity` on a dead issued handle is a complete no-op. -/
theorem remove_entity_dead {ecm : EntityComponentManager} {is : List Entity}
    (inv : ECInv ecm is) {e : Entity} (hd : ecm.is_dead e) :
    ecm.remove_entity e = (.error .DeadEntity, ecm) := by
  unfold remove_entity
  rw [EntityManager.remove_error_of_dead hd,
    aerase_lookup_none _ _ (entry_none_of_dead inv hd)]

/-- `remove_entity` on a live issued handle: invariant preservation and the
shape of the successor state. -/
theorem ecInv_remove_alive {ecm : EntityComponentManager} {is : List Entity}
    (inv : ECInv ecm is) {e : Entity} (he : e ∈ is) (ha : ecm.is_alive e) :
    ∃ em', ecm.remove_entity e = (.ok (), ⟨em',
        aerase ecm.entity_components e, ecm.component_pools⟩) ∧
      ECInv ⟨em', aerase ecm.entity_components e, ecm.component_pools⟩ is ∧
      (∀ x : Entity, x ≠ e →
        alookup (aerase ecm.entity_components e) x =
          alookup ecm.entity_components x) ∧
      alookup (aerase ecm.entity_components e) e = none ∧
      (⟨em', aerase ecm.entity_components e,
        ecm.component_pools⟩ : EntityComponentManager).is_dead e := by
  obtain ⟨em', hem⟩ := EntityManager.remove_ok_of_alive ha
  obtain ⟨-, hgen, hother, -, -⟩ := EntityManager.remove_ok_spec hem
  have hinv' := emInv_remove inv.em he hem
  have heq : ecm.remove_entity e = (.ok (), ⟨em',
      aerase ecm.entity_components e, ecm.component_pools⟩) := by
    unfold remove_entity
    rw [hem]
  have herased : alookup (aerase ecm.entity_components e) e = none :=
    alookup_aerase_self _ _ inv.keys_nodup
  have hne : ∀ x : Entity, x ≠ e →
      alookup (aerase ecm.entity_components e) x =
        alookup ecm.entity_components x :=
    fun x hx => alookup_aerase_ne _ _ _ hx
  have hdead' : (⟨em', aerase ecm.entity_components e,
      ecm.component_pools⟩ : EntityComponentManager).is_dead e := by
    show e.generation ≠ em'.alive_generation e.id
    have ha2 : e.generation = ecm.entity_manager.alive_generation e.id := ha
    omega
  refine ⟨em', heq, ⟨hinv', nodup_keys_aerase _ _ inv.keys_nodup, ?_, ?_⟩,
    hne, herased, hdead'⟩
  · intro x
    by_cases hx : x = e
    · subst hx
      rw [herased]
      simp only [Option.isSome_none, Bool.false_eq_true, false_iff]
      intro hcon
      exact hdead' hcon.2
    · rw [hne x hx]
      rw [inv.entry_iff x]
      have halive_iff : (⟨em', aerase ecm.entity_components e,
          ecm.component_pools⟩ : EntityComponentManager).is_alive x ↔
          (x ∈ is → ecm.is_alive x) ∧ (¬ x ∈ is →
            (⟨em', aerase ecm.entity_components e,
              ecm.component_pools⟩ : EntityComponentManager).is_alive x) := by
        constructor
        · intro hal
          constructor
          · intro hxis
            show x.generation = ecm.entity_manager.alive_generation x.id
            by_cases hxid : x.id = e.id
            · have hle := inv.em.gen_le x hxis
              have hal2 : x.generation = em'.alive_generation x.id := hal
              rw [hxid] at hal2 hle ⊢
              rw [hgen] at hal2
              omega
            · have hal2 : x.generation = em'.alive_generation x.id := hal
              rw [hother x.id hxid] at hal2
              exact hal2
          · intro _
            exact hal
        · intro ⟨h1, h2⟩
          by_cases hxis : x ∈ is
          · have hal := h1 hxis
            show x.generation = em'.alive_generation x.id
            by_cases hxid : x.id = e.id
            · exfalso
              have : x = e := by
                have hal2 : x.generation =
                    ecm.entity_manager.alive_generation x.id := hal
                have hae : e.generation =
                    ecm.entity_manager.alive_generation e.id := ha
                cases x
                cases e
                simp only at hxid hal2 hae
                subst hxid
                simp [hal2, hae]
              exact hx this
            · rw [hother x.id hxid]
              exact hal
          · exact h2 hxis
      constructor
      · intro ⟨hxis, hal⟩
        refine ⟨hxis, (halive_iff.mpr ⟨fun _ => hal, fun hc => absurd hxis hc⟩)⟩
      · intro ⟨hxis, hal⟩
        exact ⟨hxis, (halive_iff.mp hal).1 hxis⟩
  · intro x tags hx ct hct
    by_cases hxe : x = e
    · subst hxe
      rw [herased] at hx
      cases hx
    · rw [hne x hxe] at hx
      exact inv.tags_pooled x tags hx ct hct

theorem add_component_dead {ecm : EntityComponentManager} {e : Entity}
    (hd : ecm.is_dead e) (ct : Nat) (v : Val) :
    ecm.add_component e ct v = some (.error .DeadEntity, ecm) := by
  unfold add_component
  rw [if_pos hd]

theorem remove_component_dead {ecm : EntityComponentManager} {e : Entity}
    (hd : ecm.is_dead e) (ct : Nat) :
    ecm.remove_component e ct = some (.error .DeadEntity, ecm) := by
  unfold remove_component
  rw [if_pos hd]

theorem not_dead_of_alive {ecm : EntityComponentManager} {e : Entity}
    (ha : ecm.is_alive e) : ¬ ecm.is_dead e := by
  have h1 : e.generation = ecm.entity_manager.alive_generation e.id := ha
  show ¬ e.generation ≠ ecm.entity_manager.alive_generation e.id
  omega

theorem alive_of_not_dead {ecm : EntityComponentManager} {e : Entity}
    (h : ¬ ecm.is_dead e) : ecm.is_alive e := by
  have h1 : ¬ e.generation ≠ ecm.entity_manager.alive_generation e.id := h
  show e.generation = ecm.entity_manager.alive_generation e.id
  omega

/-- The successor state of a completed `add_component` on a live handle with
a recorded tag set. -/
theorem add_component_alive_spec {ecm : EntityComponentManager} {e : Entity}
    {tags : Finset Nat} (ha : ecm.is_alive e)
    (htags : alookup ecm.entity_components e = some tags) {ct : Nat} {v : Val}
    {res : Except EcsError Unit} {ecm' : EntityComponentManager}
    (hs : ecm.add_component e ct v = some (res, ecm')) :
    res = .ok () ∧
    ecm'.entity_manager = ecm.entity_manager ∧
    ecm'.entity_components = ainsert ecm.entity_components e (insert ct tags) ∧
    (alookup ecm'.component_pools ct).isSome ∧
    (∀ t, (alookup ecm.component_pools t).isSome →
      (alookup ecm'.component_pools t).isSome) := by
  unfold add_component at hs
  rw [if_neg (not_dead_of_alive ha), htags] at hs
  cases hpool : alookup ecm.component_pools ct with
  | none =>
      rw [hpool] at hs
      cases hnew : ComponentPool.new_one e v with
      | none =>
          rw [hnew] at hs
          cases hs
      | some pool =>
          rw [hnew] at hs
          injection hs with hs
          injection hs with hs1 hs2
          subst hs2
          refine ⟨hs1.symm, rfl, rfl, ?_, ?_⟩
          · simp [alookup_ainsert_self]
          · intro t ht
            by_cases htc : t = ct
            · subst htc
              simp [alookup_ainsert_self]
            · rwa [alookup_ainsert_ne _ _ _ _ htc]
  | some pool =>
      rw [hpool] at hs
      injection hs with hs
      injection hs with hs1 hs2
      subst hs2
      refine ⟨hs1.symm, rfl, rfl, ?_, ?_⟩
      · simp [alookup_ainsert_self]
      · intro t ht
        by_cases htc : t = ct
        · subst htc
          simp [alookup_ainsert_self]
        · rwa [alookup_ainsert_ne _ _ _ _ htc]

/-- `add_component` on a live issued handle preserves the manager
invariant. -/
theorem ecInv_add_component {ecm : EntityComponentManager} {is : List Entity}
    (inv : ECInv ecm is) {e : Entity} (he : e ∈ is) {ct : Nat} {v : Val}
    {res : Except EcsError Unit} {ecm' : EntityComponentManager}
    (hs : ecm.add_component e ct v = some (res, ecm')) : ECInv ecm' is := by
  by_cases hd : ecm.is_dead e
  · rw [add_component_dead hd ct v] at hs
    injection hs with hs
    injection hs with hs1 hs2
    subst hs2
    exact inv
  · have ha := alive_of_not_dead hd
    obtain ⟨tags, htags⟩ := entry_of_alive inv he ha
    obtain ⟨-, hem, hec, hpool_ct, hpool_mono⟩ :=
      add_component_alive_spec ha htags hs
    have halive_same : ∀ x : Entity, ecm'.is_alive x ↔ ecm.is_alive x := by
      intro x
      show x.generation = ecm'.entity_manager.alive_generation x.id ↔
        x.generation = ecm.entity_manager.alive_generation x.id
      rw [hem]
    refine ⟨hem ▸ inv.em, ?_, ?_, ?_⟩
    · rw [hec]
      exact nodup_keys_ainsert _ _ _ inv.keys_nodup
    · intro x
      rw [halive_same x]
      by_cases hx : x = e
      · subst hx
        rw [hec, alookup_ainsert_self]
        simpa using ⟨he, ha⟩
      · rw [hec, alookup_ainsert_ne _ _ _ _ hx]
        exact inv.entry_iff x
    · intro x xtags hx t ht
      by_cases hxe : x = e
      · subst hxe
        rw [hec, alookup_ainsert_self] at hx
        injection hx with hx
        subst hx
        rcases Finset.mem_insert.mp ht with ht | ht
        · subst ht
          exact hpool_ct
        · exact hpool_mono t (inv.tags_pooled _ tags htags t ht)
      · rw [hec, alookup_ainsert_ne _ _ _ _ hxe] at hx
        exact hpool_mono t (inv.tags_pooled x xtags hx t ht)

/-- On a live handle whose component type has no pool, `remove_component`
reports `NoSuchComponent` and (because a tag is only ever recorded together
with its pool) leaves the state unchanged. -/
theorem remove_component_no_pool_spec {ecm : EntityComponentManager}
    {is : List Entity} (inv : ECInv ecm is) {e : Entity} {tags : Finset Nat}
    (ha : ecm.is_alive e)
    (htags : alookup ecm.entity_components e = some tags) {ct : Nat}
    (hpool : alookup ecm.component_pools ct = none) :
    ecm.remove_component e ct = some (.error .NoSuchComponent, ecm) := by
  have hct : ct ∉ tags := by
    intro hmem
    have := inv.tags_pooled e tags htags ct hmem
    rw [hpool] at this
    simp at this
  simp only [remove_component, if_neg (not_dead_of_alive ha), htags, hpool]
  rw [Finset.erase_eq_of_not_mem hct, ainsert_lookup_self _ _ _ htags]

/-- On a live handle whose component type has a pool, `remove_component`
succeeds (whether or not the entity currently holds that component). -/
theorem remove_component_pool_spec {ecm : EntityComponentManager} {e : Entity}
    {tags : Finset Nat} (ha : ecm.is_alive e)
    (htags : alookup ecm.entity_components e = some tags) {ct : Nat}
    {pool : ComponentPool} (hpool : alookup ecm.component_pools ct = some pool) :
    ecm.remove_component e ct = some (.ok (),
      ⟨ecm.entity_manager, ainsert ecm.entity_components e (tags.erase ct),
        ainsert ecm.component_pools ct (pool.remove e)⟩) := by
  unfold remove_component
  rw [if_neg (not_dead_of_alive ha), htags, hpool]

/-- `remove_component` on an issued handle preserves the manager
invariant. -/
theorem ecInv_remove_component {ecm : EntityComponentManager}
    {is : List Entity} (inv : ECInv ecm is) {e : Entity} (he : e ∈ is)
    {ct : Nat} {res : Except EcsError Unit} {ecm' : EntityComponentManager}
    (hs : ecm.remove_component e ct = some (res, ecm')) : ECInv ecm' is := by
  by_cases hd : ecm.is_dead e
  · rw [remove_component_dead hd ct] at hs
    injection hs with hs
    injection hs with hs1 hs2
    subst hs2
    exact inv
  · have ha := alive_of_not_dead hd
    obtain ⟨tags, htags⟩ := entry_of_alive inv he ha
    cases hpool : alookup ecm.component_pools ct with
    | none =>
        rw [remove_component_no_pool_spec inv ha htags hpool] at hs
        injection hs with hs
        injection hs with hs1 hs2
        subst hs2
        exact inv
    | some pool =>
        rw [remove_component_pool_spec ha htags hpool] at hs
        injection hs with hs
        injection hs with hs1 hs2
        subst hs2
        refine ⟨inv.em, ?_, ?_, ?_⟩
        · exact nodup_keys_ainsert _ _ _ inv.keys_nodup
        · intro x
          by_cases hx : x = e
          · subst hx
            rw [alookup_ainsert_self]
            simpa using ⟨he, ha⟩
          · rw [alookup_ainsert_ne _ _ _ _ hx]
            exact inv.entry_iff x
        · intro x xtags hx t ht
          have hmono : ∀ u, (alookup ecm.component_pools u).isSome →
              (alookup (ainsert ecm.component_pools ct (pool.remove e))
                u).isSome := by
            intro u hu
            by_cases huc : u = ct
            · subst huc
              simp [alookup_ainsert_self]
            · rwa [alookup_ainsert_ne _ _ _ _ huc]
          by_cases hxe : x = e
          · subst hxe
            rw [alookup_ainsert_self] at hx
            injection hx with hx
            subst hx
            exact hmono t
              (inv.tags_pooled _ tags htags t (Finset.mem_of_mem_erase ht))
          · rw [alookup_ainsert_ne _ _ _ _ hxe] at hx
            exact hmono t (inv.tags_pooled x xtags hx t ht)

end EntityComponentManager

namespace InterestStore

theorem memb_add_self (st : InterestStore) (e : Entity) :
    (st.add_entity e).memb e := by
  cases st with
  | set entities => exact Finset.mem_insert_self e entities
  | slot s => rfl

theorem memb_add_sub {st : InterestStore} {e x : Entity}
    (h : (st.add_entity e).memb x) : x = e ∨ st.memb x := by
  cases st with
  | set entities =>
      rcases Finset.mem_insert.mp h with h | h
      · exact Or.inl h
      · exact Or.inr h
  | slot s =>
      injection h with h
      exact Or.inl h.symm

theorem memb_remove {st : InterestStore} {e x : Entity} :
    (st.remove_entity e).memb x ↔ (st.memb x ∧ x ≠ e) := by
  cases st with
  | set entities =>
      show x ∈ entities.erase e ↔ _
      rw [Finset.mem_erase]
      exact ⟨fun h => ⟨h.2, h.1⟩, fun h => ⟨h.2, h.1⟩⟩
  | slot s =>
      show (if s = some e then none else s) = some x ↔ (s = some x ∧ x ≠ e)
      by_cases hs : s = some e
      · simp only [if_pos hs, hs]
        constructor
        · intro h
          cases h
        · rintro ⟨h1, h2⟩
          injection h1 with h1
          exact absurd h1.symm h2
      · simp only [if_neg hs]
        constructor
        · intro h
          refine ⟨h, fun hxe => hs (hxe ▸ h)⟩
        · exact fun h => h.1

theorem remove_of_not_memb {st : InterestStore} {e : Entity}
    (h : ¬ st.memb e) : st.remove_entity e = st := by
  cases st with
  | set entities =>
      show InterestStore.set (entities.erase e) = InterestStore.set entities
      rw [Finset.erase_eq_of_not_mem h]
  | slot s =>
      show InterestStore.slot (if s = some e then none else s) =
        InterestStore.slot s
      rw [if_neg (show ¬ s = some e from h)]

theorem add_entity_set_inv {st : InterestStore} {e : Entity}
    {s' : Finset Entity} (h : st.add_entity e = .set s') :
    ∃ s, st = .set s ∧ s' = insert e s := by
  cases st with
  | set entities =>
      injection h with h
      exact ⟨entities, rfl, h.symm⟩
  | slot s => cases h

theorem remove_entity_set_inv {st : InterestStore} {e : Entity}
    {s' : Finset Entity} (h : st.remove_entity e = .set s') :
    ∃ s, st = .set s ∧ s' = s.erase e := by
  cases st with
  | set entities =>
      injection h with h
      exact ⟨entities, rfl, h.symm⟩
  | slot s => cases h

end InterestStore

/-- A registered system's bookkeeping is correct relative to the tag map:
for a system whose bookkeeping is a set (every repository system except
`CameraFocusSystem`) with a nonempty required set, the set holds exactly the
entities with a satisfying tag-map entry; and for every system, members of
the bookkeeping always have a tag-map entry. -/
def SysOK (ec : List (Entity × Finset Nat)) (st : SystemSt) : Prop :=
  (∀ s : Finset Entity, st.store = .set s → st.required_components ≠ ∅ →
    ∀ e : Entity, (e ∈ s ↔ ∃ tags, alookup ec e = some tags ∧
      st.required_components ⊆ tags)) ∧
  (∀ e : Entity, st.store.memb e → (alookup ec e).isSome)

/-- Registry invariant. -/
structure RegInv (r : Registry) (is : List Entity) : Prop where
  ec : ECInv r.ec_manager is
  sys : ∀ p ∈ r.systems, SysOK r.ec_manager.entity_components p.2

theorem regInv_new : RegInv Registry.new [] := by
  refine ⟨ecInv_new, ?_⟩
  intro p hp
  simp [Registry.new] at hp

theorem mem_ainsert {κ β : Type} [DecidableEq κ] {l : List (κ × β)}
    {k : κ} {v : β} {p : κ × β} (h : p ∈ ainsert l k v) :
    p = (k, v) ∨ p ∈ l := by
  induction l with
  | nil => simpa [ainsert] using h
  | cons q rest ih =>
      by_cases hk : k = q.1
      · simp only [ainsert, if_pos hk, List.mem_cons] at h
        rcases h with h | h
        · exact Or.inl h
        · exact Or.inr (List.mem_cons_of_mem _ h)
      · simp only [ainsert, if_neg hk, List.mem_cons] at h
        rcases h with h | h
        · exact Or.inr (h ▸ List.mem_cons_self _ _)
        · rcases ih h with h | h
          · exact Or.inl h
          · exact Or.inr (List.mem_cons_of_mem _ h)

theorem mem_aerase {κ β : Type} [DecidableEq κ] {l : List (κ × β)}
    {k : κ} {p : κ × β} (h : p ∈ aerase l k) : p ∈ l := by
  induction l with
  | nil => simpa [aerase] using h
  | cons q rest ih =>
      by_cases hk : k = q.1
      · simp only [aerase, if_pos hk] at h
        exact List.mem_cons_of_mem _ h
      · simp only [aerase, if_neg hk, List.mem_cons] at h
        rcases h with h | h
        · exact h ▸ List.mem_cons_self _ _
        · exact List.mem_cons_of_mem _ (ih h)

namespace Registry

theorem addInterested_some {ecm : EntityComponentManager} {e : Entity}
    {tags : Finset Nat} (h : ecm.has_components e = some tags)
    (sys : List (Nat × SystemSt)) :
    addInterested ecm e sys = some (sys.map fun p =>
      (p.1, if p.2.required_components ⊆ tags then
        { p.2 with store := p.2.store.add_entity e } else p.2)) := by
  induction sys with
  | nil => rfl
  | cons p rest ih =>
      unfold addInterested
      rw [h, ih]
      rfl

theorem removeUninterested_some {ecm : EntityComponentManager} {e : Entity}
    {tags : Finset Nat} (h : ecm.has_components e = some tags)
    (sys : List (Nat × SystemSt)) :
    removeUninterested ecm e sys = some (sys.map fun p =>
      (p.1, if ¬ p.2.required_components ⊆ tags then
        { p.2 with store := p.2.store.remove_entity e } else p.2)) := by
  induction sys with
  | nil => rfl
  | cons p rest ih =>
      unfold removeUninterested
      rw [h, ih]
      rfl

/-- Backfill of a set-kind store: the result is a set-kind store holding the
previous members plus every entity listed with a satisfying tag set. -/
theorem backfill_set (required : Finset Nat) :
    ∀ (ec : List (Entity × Finset Nat)) (s0 : Finset Entity),
      ∃ s', backfill required (.set s0) ec = .set s' ∧
        ∀ x : Entity, (x ∈ s' ↔ x ∈ s0 ∨
          ∃ tags, (x, tags) ∈ ec ∧ required ⊆ tags) := by
  intro ec
  induction ec with
  | nil =>
      intro s0
      refine ⟨s0, rfl, fun x => ?_⟩
      simp
  | cons p rest ih =>
      intro s0
      obtain ⟨e0, t0⟩ := p
      by_cases hsub : required ⊆ t0
      · obtain ⟨s', hs', hmem⟩ := ih (insert e0 s0)
        refine ⟨s', ?_, fun x => ?_⟩
        · show backfill required
            (if required ⊆ t0 then (InterestStore.set s0).add_entity e0
              else .set s0) rest = .set s'
          rw [if_pos hsub]
          exact hs'
        · rw [hmem x]
          simp only [Finset.mem_insert, List.mem_cons, Prod.mk.injEq]
          constructor
          · rintro ((rfl | hx) | ⟨tags, htags, hsub2⟩)
            · exact Or.inr ⟨t0, Or.inl ⟨rfl, rfl⟩, hsub⟩
            · exact Or.inl hx
            · exact Or.inr ⟨tags, Or.inr htags, hsub2⟩
          · rintro (hx | ⟨tags, (⟨rfl, rfl⟩ | htags), hsub2⟩)
            · exact Or.inl (Or.inr hx)
            · exact Or.inl (Or.inl rfl)
            · exact Or.inr ⟨tags, htags, hsub2⟩
      · obtain ⟨s', hs', hmem⟩ := ih s0
        refine ⟨s', ?_, fun x => ?_⟩
        · show backfill required
            (if required ⊆ t0 then (InterestStore.set s0).add_entity e0
              else .set s0) rest = .set s'
          rw [if_neg hsub]
          exact hs'
        · rw [hmem x]
          simp only [List.mem_cons, Prod.mk.injEq]
          constructor
          · rintro (hx | ⟨tags, htags, hsub2⟩)
            · exact Or.inl hx
            · exact Or.inr ⟨tags, Or.inr htags, hsub2⟩
          · rintro (hx | ⟨tags, (⟨rfl, rfl⟩ | htags), hsub2⟩)
            · exact Or.inl hx
            · exact absurd hsub2 hsub
            · exact Or.inr ⟨tags, htags, hsub2⟩

/-- Every member of a backfilled store was already a member or is a key of
the scanned tag map. -/
theorem backfill_memb_key (required : Finset Nat) :
    ∀ (ec : List (Entity × Finset Nat)) (st : InterestStore) (x : Entity),
      (backfill required st ec).memb x →
        st.memb x ∨ x ∈ ec.map Prod.fst := by
  intro ec
  induction ec with
  | nil =>
      intro st x h
      exact Or.inl h
  | cons p rest ih =>
      intro st x h
      obtain ⟨e0, t0⟩ := p
      have h2 := ih (if required ⊆ t0 then st.add_entity e0 else st) x h
      rcases h2 with h2 | h2
      · by_cases hsub : required ⊆ t0
        · rw [if_pos hsub] at h2
          rcases InterestStore.memb_add_sub h2 with h3 | h3
          · exact Or.inr (h3 ▸ List.mem_cons_self _ _)
          · exact Or.inl h3
        · rw [if_neg hsub] at h2
          exact Or.inl h2
      · exact Or.inr (List.mem_cons_of_mem _ h2)

end Registry

namespace Registry

theorem regInv_create {r : Registry} {is : List Entity} (inv : RegInv r is) :
    RegInv r.create_entity.2 (r.create_entity.1 :: is) := by
  obtain ⟨hec', hfresh, halive, hself, hother, hpools, hem⟩ :=
    EntityComponentManager.ecInv_create inv.ec
  have hnokey : alookup r.ec_manager.entity_components
      r.ec_manager.create_entity.1 = none := by
    cases hx : alookup r.ec_manager.entity_components
        r.ec_manager.create_entity.1 with
    | none => rfl
    | some tags =>
        exact absurd
          (EntityComponentManager.alive_of_mem_entry inv.ec hx).1 hfresh
  show RegInv ⟨r.ec_manager.create_entity.2, r.systems⟩
    (r.ec_manager.create_entity.1 :: is)
  refine ⟨hec', ?_⟩
  intro p hp
  have hold := inv.sys p hp
  set e := r.ec_manager.create_entity.1 with he
  constructor
  · intro s hstore hreq x
    by_cases hx : x = e
    · rw [hx, hself]
      have hnotmem : e ∉ s := by
        intro hmem
        have := hold.2 e (by rw [hstore]; exact hmem)
        rw [hnokey] at this
        simp at this
      simp only [hnotmem, false_iff]
      rintro ⟨tags, htags, hsub⟩
      injection htags with htags
      rw [← htags] at hsub
      exact hreq (Finset.subset_empty.mp hsub)
    · rw [hother x hx]
      exact hold.1 s hstore hreq x
  · intro x hx
    by_cases hxe : x = e
    · rw [hxe]
      simp [hself]
    · rw [hother x hxe]
      exact hold.2 x hx

/-- `Registry::remove_entity` on a dead issued handle leaves the state
unchanged (the interest-set erasures and the tag-map removal are no-ops). -/
theorem remove_entity_dead_noop {r : Registry} {is : List Entity}
    (inv : RegInv r is) {e : Entity} (hd : r.is_dead e) :
    r.remove_entity e = (.error .DeadEntity, r) := by
  have hecm := EntityComponentManager.remove_entity_dead inv.ec hd
  have hsys : (r.systems.map fun p =>
      (p.1, { p.2 with store := p.2.store.remove_entity e })) = r.systems := by
    apply list_map_eq_self
    intro p hp
    have hnot : ¬ p.2.store.memb e := by
      intro hmem
      have := (inv.sys p hp).2 e hmem
      rw [EntityComponentManager.entry_none_of_dead inv.ec hd] at this
      simp at this
    rw [InterestStore.remove_of_not_memb hnot]
  unfold remove_entity
  rw [hecm, hsys]

theorem regInv_remove_entity {r : Registry} {is : List Entity}
    (inv : RegInv r is) {e : Entity} (he : e ∈ is) :
    RegInv (r.remove_entity e).2 is := by
  by_cases hd : r.is_dead e
  · rw [remove_entity_dead_noop inv hd]
    exact inv
  · have ha := EntityComponentManager.alive_of_not_dead
      (show ¬ r.ec_manager.is_dead e from hd)
    obtain ⟨em', heq, hec', hne, herased, -⟩ :=
      EntityComponentManager.ecInv_remove_alive inv.ec he ha
    have hr : (r.remove_entity e).2 =
        ⟨⟨em', aerase r.ec_manager.entity_components e,
            r.ec_manager.component_pools⟩,
          r.systems.map fun p =>
            (p.1, { p.2 with store := p.2.store.remove_entity e })⟩ := by
      unfold remove_entity
      rw [heq]
    rw [hr]
    refine ⟨hec', ?_⟩
    intro p' hp'
    obtain ⟨p, hp, hpe⟩ := List.mem_map.mp hp'
    have hold := inv.sys p hp
    subst hpe
    constructor
    · intro s' hstore' hreq x
      obtain ⟨s, hstore, hs'⟩ := InterestStore.remove_entity_set_inv hstore'
      subst hs'
      by_cases hx : x = e
      · rw [hx, herased]
        simp
      · rw [hne x hx, Finset.mem_erase]
        simp only [ne_eq, hx, not_false_eq_true, true_and]
        exact hold.1 s hstore hreq x
    · intro x hx
      obtain ⟨hmem, hxe⟩ := InterestStore.memb_remove.mp hx
      rw [hne x hxe]
      exact hold.2 x hmem

end Registry

namespace Registry

theorem add_component_dead_noop {r : Registry} {e : Entity}
    (hd : r.is_dead e) (ct : Nat) (v : Val) :
    r.add_component e ct v = some (.error .DeadEntity, r) := by
  unfold add_component
  rw [EntityComponentManager.add_component_dead hd ct v]

theorem remove_component_dead_noop {r : Registry} {e : Entity}
    (hd : r.is_dead e) (ct : Nat) :
    r.remove_component e ct = some (.error .DeadEntity, r) := by
  unfold remove_component
  rw [EntityComponentManager.remove_component_dead hd ct]

/-- A completed `Registry::add_component` on a live issued handle: the
successor state, explicitly. -/
theorem reg_add_component_spec {r : Registry} {is : List Entity}
    (inv : RegInv r is) {e : Entity} (he : e ∈ is) (ha : r.is_alive e)
    {ct : Nat} {v : Val} {res : Except EcsError Unit} {r' : Registry}
    (hs : r.add_component e ct v = some (res, r')) :
    ∃ tags ecm', alookup r.ec_manager.entity_components e = some tags ∧
      r.ec_manager.add_component e ct v = some (.ok (), ecm') ∧
      res = .ok () ∧
      ecm'.entity_components =
        ainsert r.ec_manager.entity_components e (insert ct tags) ∧
      ecm'.entity_manager = r.ec_manager.entity_manager ∧
      r' = ⟨ecm', r.systems.map fun p =>
        (p.1, if p.2.required_components ⊆ insert ct tags then
          { p.2 with store := p.2.store.add_entity e } else p.2)⟩ := by
  obtain ⟨tags, htags⟩ := EntityComponentManager.entry_of_alive inv.ec he ha
  cases hecm : r.ec_manager.add_component e ct v with
  | none =>
      rw [show r.add_component e ct v = none by
        unfold add_component
        rw [hecm]] at hs
      cases hs
  | some q =>
      obtain ⟨res0, ecm'⟩ := q
      obtain ⟨hres0, hem, hec, -, -⟩ :=
        EntityComponentManager.add_component_alive_spec ha htags hecm
      subst hres0
      have hhc : ecm'.has_components e = some (insert ct tags) := by
        unfold EntityComponentManager.has_components
        rw [hec, alookup_ainsert_self]
      have hadd : r.add_component e ct v = some (.ok (),
          ⟨ecm', r.systems.map fun p =>
            (p.1, if p.2.required_components ⊆ insert ct tags then
              { p.2 with store := p.2.store.add_entity e } else p.2)⟩) := by
        simp only [add_component, hecm, addInterested_some hhc]
      rw [hadd] at hs
      injection hs with hs
      injection hs with hs1 hs2
      exact ⟨tags, ecm', htags, rfl, hs1.symm, hec, hem, hs2.symm⟩

theorem regInv_add_component {r : Registry} {is : List Entity}
    (inv : RegInv r is) {e : Entity} (he : e ∈ is) {ct : Nat} {v : Val}
    {res : Except EcsError Unit} {r' : Registry}
    (hs : r.add_component e ct v = some (res, r')) : RegInv r' is := by
  by_cases hd : r.is_dead e
  · rw [add_component_dead_noop hd ct v] at hs
    injection hs with hs
    injection hs with hs1 hs2
    subst hs2
    exact inv
  · have ha := EntityComponentManager.alive_of_not_dead
      (show ¬ r.ec_manager.is_dead e from hd)
    obtain ⟨tags, ecm', htags, hecm, hres, hec, hem, hr'⟩ :=
      reg_add_component_spec inv he ha hs
    subst hr'
    have hecInv' : ECInv ecm' is :=
      EntityComponentManager.ecInv_add_component inv.ec he hecm
    refine ⟨hecInv', ?_⟩
    intro p' hp'
    obtain ⟨p, hp, hpe⟩ := List.mem_map.mp hp'
    have hold := inv.sys p hp
    subst hpe
    have hself : alookup ecm'.entity_components e = some (insert ct tags) := by
      rw [hec, alookup_ainsert_self]
    have hother : ∀ x : Entity, x ≠ e →
        alookup ecm'.entity_components x =
          alookup r.ec_manager.entity_components x := by
      intro x hx
      rw [hec, alookup_ainsert_ne _ _ _ _ hx]
    by_cases hsub : p.2.required_components ⊆ insert ct tags
    · simp only [if_pos hsub]
      constructor
      · intro s' hstore' hreq x
        obtain ⟨s, hstore, hs'⟩ := InterestStore.add_entity_set_inv hstore'
        subst hs'
        simp only [Finset.mem_insert]
        by_cases hx : x = e
        · simp only [hx, true_or, true_iff]
          exact ⟨insert ct tags, hself, hsub⟩
        · simp only [hx, false_or]
          rw [hother x hx]
          exact hold.1 s hstore hreq x
      · intro x hx
        by_cases hxe : x = e
        · rw [hxe]
          simp [hself]
        · rcases InterestStore.memb_add_sub hx with h2 | h2
          · exact absurd h2 hxe
          · rw [hother x hxe]
            exact hold.2 x h2
    · simp only [if_neg hsub]
      constructor
      · intro s hstore hreq x
        by_cases hx : x = e
        · rw [hx, hself]
          have hnot : e ∉ s := by
            intro hmem
            obtain ⟨tags0, htags0, hsub0⟩ :=
              (hold.1 s hstore hreq e).mp hmem
            rw [htags] at htags0
            injection htags0 with htags0
            rw [← htags0] at hsub0
            exact hsub (hsub0.trans (Finset.subset_insert ct tags))
          simp only [hnot, false_iff]
          rintro ⟨tags1, htags1, hsub1⟩
          injection htags1 with htags1
          rw [← htags1] at hsub1
          exact hsub hsub1
        · rw [hother x hx]
          exact hold.1 s hstore hreq x
      · intro x hx
        by_cases hxe : x = e
        · rw [hxe]
          simp [hself]
        · rw [hother x hxe]
          exact hold.2 x hx

end Registry

namespace Registry

/-- `Registry::remove_component` on a live handle whose component type has no
pool: the interest loop is skipped and the state is unchanged. -/
theorem remove_component_no_pool_noop {r : Registry} {is : List Entity}
    (inv : RegInv r is) {e : Entity} {tags : Finset Nat} (ha : r.is_alive e)
    (htags : alookup r.ec_manager.entity_components e = some tags) {ct : Nat}
    (hpool : alookup r.ec_manager.component_pools ct = none) :
    r.remove_component e ct = some (.error .NoSuchComponent, r) := by
  unfold remove_component
  rw [EntityComponentManager.remove_component_no_pool_spec inv.ec ha htags
    hpool]

/-- A completed `Registry::remove_component` on a live issued handle whose
component type has a pool: the successor state, explicitly. -/
theorem reg_remove_component_pool_spec {r : Registry} {e : Entity}
    {tags : Finset Nat} (ha : r.is_alive e)
    (htags : alookup r.ec_manager.entity_components e = some tags) {ct : Nat}
    {pool : ComponentPool}
    (hpool : alookup r.ec_manager.component_pools ct = some pool) :
    r.remove_component e ct = some (.ok (),
      ⟨⟨r.ec_manager.entity_manager,
          ainsert r.ec_manager.entity_components e (tags.erase ct),
          ainsert r.ec_manager.component_pools ct (pool.remove e)⟩,
        r.systems.map fun p =>
          (p.1, if ¬ p.2.required_components ⊆ tags.erase ct then
            { p.2 with store := p.2.store.remove_entity e } else p.2)⟩) := by
  have hecm := EntityComponentManager.remove_component_pool_spec ha htags hpool
  have hhc : (⟨r.ec_manager.entity_manager,
      ainsert r.ec_manager.entity_components e (tags.erase ct),
      ainsert r.ec_manager.component_pools ct (pool.remove e)⟩ :
        EntityComponentManager).has_components e = some (tags.erase ct) := by
    unfold EntityComponentManager.has_components
    exact alookup_ainsert_self _ _ _
  simp only [remove_component, hecm, removeUninterested_some hhc]

theorem regInv_remove_component {r : Registry} {is : List Entity}
    (inv : RegInv r is) {e : Entity} (he : e ∈ is) {ct : Nat}
    {res : Except EcsError Unit} {r' : Registry}
    (hs : r.remove_component e ct = some (res, r')) : RegInv r' is := by
  by_cases hd : r.is_dead e
  · rw [remove_component_dead_noop hd ct] at hs
    injection hs with hs
    injection hs with hs1 hs2
    subst hs2
    exact inv
  · have ha := EntityComponentManager.alive_of_not_dead
      (show ¬ r.ec_manager.is_dead e from hd)
    obtain ⟨tags, htags⟩ := EntityComponentManager.entry_of_alive inv.ec he ha
    cases hpool : alookup r.ec_manager.component_pools ct with
    | none =>
        rw [remove_component_no_pool_noop inv ha htags hpool] at hs
        injection hs with hs
        injection hs with hs1 hs2
        subst hs2
        exact inv
    | some pool =>
        rw [reg_remove_component_pool_spec ha htags hpool] at hs
        injection hs with hs
        injection hs with hs1 hs2
        subst hs2
        have hecm : r.ec_manager.remove_component e ct = some (.ok (),
            ⟨r.ec_manager.entity_manager,
              ainsert r.ec_manager.entity_components e (tags.erase ct),
              ainsert r.ec_manager.component_pools ct (pool.remove e)⟩) :=
          EntityComponentManager.remove_component_pool_spec ha htags hpool
        have hecInv' := EntityComponentManager.ecInv_remove_component inv.ec
          he hecm
        refine ⟨hecInv', ?_⟩
        intro p' hp'
        obtain ⟨p, hp, hpe⟩ := List.mem_map.mp hp'
        have hold := inv.sys p hp
        subst hpe
        have hself : alookup (ainsert r.ec_manager.entity_components e
            (tags.erase ct)) e = some (tags.erase ct) :=
          alookup_ainsert_self _ _ _
        have hother : ∀ x : Entity, x ≠ e →
            alookup (ainsert r.ec_manager.entity_components e
              (tags.erase ct)) x =
              alookup r.ec_manager.entity_components x :=
          fun x hx => alookup_ainsert_ne _ _ _ _ hx
        by_cases hsub : p.2.required_components ⊆ tags.erase ct
        · simp only [hsub, not_true_eq_false, if_neg, ite_false,
            not_false_eq_true, if_pos]
          constructor
          · intro s hstore hreq x
            by_cases hx : x = e
            · rw [hx, hself]
              have hmem : e ∈ s := by
                refine (hold.1 s hstore hreq e).mpr ⟨tags, htags, ?_⟩
                exact hsub.trans (Finset.erase_subset ct tags)
              simp only [hmem, true_iff]
              exact ⟨tags.erase ct, rfl, hsub⟩
            · rw [hother x hx]
              exact hold.1 s hstore hreq x
          · intro x hx
            by_cases hxe : x = e
            · rw [hxe]
              simp [hself]
            · rw [hother x hxe]
              exact hold.2 x hx
        · simp only [hsub, not_false_eq_true, if_pos]
          constructor
          · intro s' hstore' hreq x
            obtain ⟨s, hstore, hs'⟩ :=
              InterestStore.remove_entity_set_inv hstore'
            subst hs'
            by_cases hx : x = e
            · rw [hx, hself]
              simp only [Finset.mem_erase, ne_eq, not_true_eq_false,
                false_and, false_iff]
              rintro ⟨tags1, htags1, hsub1⟩
              injection htags1 with htags1
              rw [← htags1] at hsub1
              exact hsub hsub1
            · rw [hother x hx, Finset.mem_erase]
              simp only [ne_eq, hx, not_false_eq_true, true_and]
              exact hold.1 s hstore hreq x
          · intro x hx
            obtain ⟨hmem, hxe⟩ := InterestStore.memb_remove.mp hx
            rw [hother x hxe]
            exact hold.2 x hmem

/-- Backfill never changes the kind of the store: a set-kind result comes
from a set-kind start. -/
theorem backfill_set_inv {required : Finset Nat} :
    ∀ {ec : List (Entity × Finset Nat)} {st : InterestStore}
      {s' : Finset Entity}, backfill required st ec = .set s' →
      ∃ s0, st = .set s0 := by
  intro ec
  induction ec with
  | nil =>
      intro st s' h
      exact ⟨s', h⟩
  | cons p rest ih =>
      intro st s' h
      obtain ⟨e0, t0⟩ := p
      obtain ⟨s1, hs1⟩ := ih h
      by_cases hsub : required ⊆ t0
      · rw [if_pos hsub] at hs1
        obtain ⟨s0, hs0, -⟩ := InterestStore.add_entity_set_inv hs1
        exact ⟨s0, hs0⟩
      · rw [if_neg hsub] at hs1
        exact ⟨s1, hs1⟩

theorem regInv_add_system {r : Registry} {is : List Entity}
    (inv : RegInv r is) (sid : Nat) (required : Finset Nat) (k : StoreKind) :
    RegInv (r.add_system sid required k) is := by
  refine ⟨inv.ec, ?_⟩
  intro p hp
  rcases mem_ainsert hp with hp | hp
  · subst hp
    constructor
    · intro s' hstore' hreq x
      cases k with
      | slot =>
          obtain ⟨s0, hs0⟩ := backfill_set_inv hstore'
          cases hs0
      | set =>
          obtain ⟨s'', heq, hmem⟩ :=
            backfill_set required r.ec_manager.entity_components ∅
          have hs : s'' = s' := by
            have := heq.symm.trans hstore'
            injection this
          subst hs
          rw [hmem x]
          simp only [Finset.not_mem_empty, false_or]
          constructor
          · rintro ⟨tags, htags, hsub⟩
            exact ⟨tags, alookup_of_mem_nodup inv.ec.keys_nodup htags, hsub⟩
          · rintro ⟨tags, htags, hsub⟩
            exact ⟨tags, alookup_mem htags, hsub⟩
    · intro x hx
      rcases backfill_memb_key required _ _ x hx with h2 | h2
      · exfalso
        cases k with
        | set => exact absurd h2 (Finset.not_mem_empty x)
        | slot => cases h2
      · exact (alookup_isSome_iff _ _).mpr h2
  · exact inv.sys p hp

theorem regInv_remove_system {r : Registry} {is : List Entity}
    (inv : RegInv r is) (sid : Nat) : RegInv (r.remove_system sid) is :=
  ⟨inv.ec, fun p hp => inv.sys p (mem_aerase hp)⟩

end Registry

theorem mem_insertIfAbsent {l : List Entity} {e x : Entity} :
    x ∈ insertIfAbsent l e ↔ x = e ∨ x ∈ l := by
  unfold insertIfAbsent
  by_cases h : e ∈ l
  · simp only [if_pos h]
    constructor
    · exact Or.inr
    · rintro (rfl | hx)
      · exact h
      · exact hx
  · simp [if_neg h, List.mem_cons]

theorem nodup_insertIfAbsent {l : List Entity} (e : Entity) (h : l.Nodup) :
    (insertIfAbsent l e).Nodup := by
  unfold insertIfAbsent
  by_cases hm : e ∈ l
  · simpa [if_pos hm] using h
  · simpa [if_neg hm] using ⟨hm, h⟩

/-- Mid-run bookkeeping correctness: like `SysOK`, but entities the run has
already touched (the changed set) are exempt until the reconciliation pass
after the run. -/
def SysOKx (ec : List (Entity × Finset Nat)) (ch : List Entity)
    (st : SystemSt) : Prop :=
  (∀ s : Finset Entity, st.store = .set s → st.required_components ≠ ∅ →
    ∀ e : Entity, e ∉ ch →
      (e ∈ s ↔ ∃ tags, alookup ec e = some tags ∧
        st.required_components ⊆ tags)) ∧
  (∀ e : Entity, st.store.memb e → e ∈ ch ∨ (alookup ec e).isSome)

/-- Invariant maintained while a system's run body executes through the
change-tracking wrapper. -/
structure WInv (ecm : EntityComponentManager) (ch is : List Entity)
    (systems : List (Nat × SystemSt)) : Prop where
  ec : ECInv ecm is
  ch_nodup : ch.Nodup
  sys : ∀ p ∈ systems, SysOKx ecm.entity_components ch p.2

theorem winv_init {r : Registry} {is : List Entity} (inv : RegInv r is) :
    WInv r.ec_manager [] is r.systems := by
  refine ⟨inv.ec, List.nodup_nil, ?_⟩
  intro p hp
  have h := inv.sys p hp
  exact ⟨fun s hs hreq e _ => h.1 s hs hreq e,
    fun e he => Or.inr (h.2 e he)⟩

/-- One wrapper step preserves the mid-run invariant: the touched entity
joins the changed set and every untouched entity keeps its tag-map entry. -/
theorem winv_step_lookup_stable {ec ec' : List (Entity × Finset Nat)}
    {e : Entity} (hother : ∀ x : Entity, x ≠ e → alookup ec' x = alookup ec x)
    {ch : List Entity} {st : SystemSt}
    (h : SysOKx ec ch st) : SysOKx ec' (insertIfAbsent ch e) st := by
  constructor
  · intro s hs hreq x hx
    rw [mem_insertIfAbsent] at hx
    push_neg at hx
    rw [hother x hx.1]
    exact h.1 s hs hreq x hx.2
  · intro x hxm
    by_cases hx : x = e
    · exact Or.inl (mem_insertIfAbsent.mpr (Or.inl hx))
    · rcases h.2 x hxm with hc | hc
      · exact Or.inl (mem_insertIfAbsent.mpr (Or.inr hc))
      · rw [← hother x hx] at hc
        exact Or.inr hc

theorem winv_createE {ecm : EntityComponentManager} {ch is : List Entity}
    {systems : List (Nat × SystemSt)} (w : WInv ecm ch is systems) :
    WInv ecm.create_entity.2 (insertIfAbsent ch ecm.create_entity.1)
      (ecm.create_entity.1 :: is) systems := by
  obtain ⟨hec', -, -, -, hother, -, -⟩ :=
    EntityComponentManager.ecInv_create w.ec
  exact ⟨hec', nodup_insertIfAbsent _ w.ch_nodup,
    fun p hp => winv_step_lookup_stable hother (w.sys p hp)⟩

theorem winv_removeE {ecm : EntityComponentManager} {ch is : List Entity}
    {systems : List (Nat × SystemSt)} (w : WInv ecm ch is systems)
    {e : Entity} (he : e ∈ is) :
    WInv (ecm.remove_entity e).2 (insertIfAbsent ch e) is systems := by
  by_cases hd : ecm.is_dead e
  · rw [EntityComponentManager.remove_entity_dead w.ec hd]
    exact ⟨w.ec, nodup_insertIfAbsent _ w.ch_nodup,
      fun p hp => winv_step_lookup_stable (fun x _ => rfl) (w.sys p hp)⟩
  · have ha := EntityComponentManager.alive_of_not_dead hd
    obtain ⟨em', heq, hec', hne, -, -⟩ :=
      EntityComponentManager.ecInv_remove_alive w.ec he ha
    rw [heq]
    exact ⟨hec', nodup_insertIfAbsent _ w.ch_nodup,
      fun p hp => winv_step_lookup_stable hne (w.sys p hp)⟩

theorem winv_addComp {ecm : EntityComponentManager} {ch is : List Entity}
    {systems : List (Nat × SystemSt)} (w : WInv ecm ch is systems)
    {e : Entity} (he : e ∈ is) {ct : Nat} {v : Val}
    {res : Except EcsError Unit} {ecm' : EntityComponentManager}
    (hs : ecm.add_component e ct v = some (res, ecm')) :
    WInv ecm' (insertIfAbsent ch e) is systems := by
  have hec' := EntityComponentManager.ecInv_add_component w.ec he hs
  by_cases hd : ecm.is_dead e
  · rw [EntityComponentManager.add_component_dead hd ct v] at hs
    injection hs with hs
    injection hs with hs1 hs2
    subst hs2
    exact ⟨w.ec, nodup_insertIfAbsent _ w.ch_nodup,
      fun p hp => winv_step_lookup_stable (fun x _ => rfl) (w.sys p hp)⟩
  · have ha := EntityComponentManager.alive_of_not_dead hd
    obtain ⟨tags, htags⟩ := EntityComponentManager.entry_of_alive w.ec he ha
    obtain ⟨-, -, hec, -, -⟩ :=
      EntityComponentManager.add_component_alive_spec ha htags hs
    have hother : ∀ x : Entity, x ≠ e →
        alookup ecm'.entity_components x =
          alookup ecm.entity_components x := by
      intro x hx
      rw [hec, alookup_ainsert_ne _ _ _ _ hx]
    exact ⟨hec', nodup_insertIfAbsent _ w.ch_nodup,
      fun p hp => winv_step_lookup_stable hother (w.sys p hp)⟩

theorem winv_removeComp {ecm : EntityComponentManager} {ch is : List Entity}
    {systems : List (Nat × SystemSt)} (w : WInv ecm ch is systems)
    {e : Entity} (he : e ∈ is) {ct : Nat}
    {res : Except EcsError Unit} {ecm' : EntityComponentManager}
    (hs : ecm.remove_component e ct = some (res, ecm')) :
    WInv ecm' (insertIfAbsent ch e) is systems := by
  have hec' := EntityComponentManager.ecInv_remove_component w.ec he hs
  by_cases hd : ecm.is_dead e
  · rw [EntityComponentManager.remove_component_dead hd ct] at hs
    injection hs with hs
    injection hs with hs1 hs2
    subst hs2
    exact ⟨w.ec, nodup_insertIfAbsent _ w.ch_nodup,
      fun p hp => winv_step_lookup_stable (fun x _ => rfl) (w.sys p hp)⟩
  · have ha := EntityComponentManager.alive_of_not_dead hd
    obtain ⟨tags, htags⟩ := EntityComponentManager.entry_of_alive w.ec he ha
    cases hpool : alookup ecm.component_pools ct with
    | none =>
        rw [EntityComponentManager.remove_component_no_pool_spec w.ec ha htags
          hpool] at hs
        injection hs with hs
        injection hs with hs1 hs2
        subst hs2
        exact ⟨w.ec, nodup_insertIfAbsent _ w.ch_nodup,
          fun p hp => winv_step_lookup_stable (fun x _ => rfl) (w.sys p hp)⟩
    | some pool =>
        rw [EntityComponentManager.remove_component_pool_spec ha htags
          hpool] at hs
        injection hs with hs
        injection hs with hs1 hs2
        subst hs2
        have hother : ∀ x : Entity, x ≠ e →
            alookup (ainsert ecm.entity_components e (tags.erase ct)) x =
              alookup ecm.entity_components x :=
          fun x hx => alookup_ainsert_ne _ _ _ _ hx
        exact ⟨hec', nodup_insertIfAbsent _ w.ch_nodup,
          fun p hp => winv_step_lookup_stable hother (w.sys p hp)⟩

/-- Running a completed wrapper body preserves the mid-run invariant. -/
theorem runW_winv {cmds : List WCmd} :
    ∀ {ecm : EntityComponentManager} {ch is : List Entity}
      {systems : List (Nat × SystemSt)}
      {ecm' : EntityComponentManager} {ch' is' : List Entity},
      runW ecm ch is cmds = some (ecm', ch', is') →
      WInv ecm ch is systems → WInv ecm' ch' is' systems := by
  induction cmds with
  | nil =>
      intro ecm ch is systems ecm' ch' is' hrun w
      injection hrun with hrun
      injection hrun with h1 hrun
      injection hrun with h2 h3
      subst h1
      subst h2
      subst h3
      exact w
  | cons c rest ih =>
      intro ecm ch is systems ecm' ch' is' hrun w
      cases c with
      | createE =>
          exact ih hrun (winv_createE w)
      | removeE e =>
          unfold runW at hrun
          by_cases he : e ∈ is
          · rw [if_pos he] at hrun
            exact ih hrun (winv_removeE w he)
          · rw [if_neg he] at hrun
            cases hrun
      | addComp e ct v =>
          unfold runW at hrun
          by_cases he : e ∈ is
          · rw [if_pos he] at hrun
            cases hq : ecm.add_component e ct v with
            | none => rw [hq] at hrun; cases hrun
            | some q =>
                rw [hq] at hrun
                exact ih hrun (winv_addComp w he hq)
          · rw [if_neg he] at hrun
            cases hrun
      | removeComp e ct =>
          unfold runW at hrun
          by_cases he : e ∈ is
          · rw [if_pos he] at hrun
            cases hq : ecm.remove_component e ct with
            | none => rw [hq] at hrun; cases hrun
            | some q =>
                rw [hq] at hrun
                exact ih hrun (winv_removeComp w he hq)
          · rw [if_neg he] at hrun
            cases hrun

theorem reconcileSys_some {ecm : EntityComponentManager} {e : Entity}
    {tags : Finset Nat} (h : ecm.has_components e = some tags)
    (sys : List (Nat × SystemSt)) :
    reconcileSys ecm e sys = some (sys.map fun p =>
      (p.1, { p.2 with store :=
        if p.2.required_components ⊆ tags then p.2.store.add_entity e
        else p.2.store.remove_entity e })) := by
  induction sys with
  | nil => rfl
  | cons p rest ih =>
      unfold reconcileSys
      rw [h, ih]
      rfl

/-- Reconciliation completing against a nonempty system list forces every
changed entity to still have a tag-map entry: each iteration unwraps
`has_components`. -/
theorem reconcile_entry_of_mem_ch {ecm : EntityComponentManager} :
    ∀ {ch : List Entity} {sys sys' : List (Nat × SystemSt)},
      reconcile ecm ch sys = some sys' → sys ≠ [] →
      ∀ x ∈ ch, ∃ tags, ecm.has_components x = some tags := by
  intro ch
  induction ch with
  | nil =>
      intro sys sys' _ _ x hx
      exact absurd hx (List.not_mem_nil x)
  | cons e rest ih =>
      intro sys sys' hrec hne x hx
      unfold reconcile at hrec
      cases h1 : reconcileSys ecm e sys with
      | none => rw [h1] at hrec; cases hrec
      | some sys1 =>
          rw [h1] at hrec
          cases sys with
          | nil => exact absurd rfl hne
          | cons q qs =>
              have htags : ∃ tags, ecm.has_components e = some tags := by
                cases h1' : ecm.has_components e with
                | none =>
                    unfold reconcileSys at h1
                    rw [h1'] at h1
                    cases h1
                | some tags => exact ⟨tags, rfl⟩
              rcases List.mem_cons.mp hx with hx | hx
              · rw [hx]
                exact htags
              · obtain ⟨tags, htags⟩ := htags
                rw [reconcileSys_some htags (q :: qs)] at h1
                injection h1 with h1
                refine ih hrec ?_ x hx
                rw [← h1]
                exact List.cons_ne_nil _ _

/-- What one completed reconciliation pass establishes: every system keeps
its key and required set; for a set-kind store, membership of every
reconciled entity is exactly "has a satisfying tag-map entry" and membership
of every other entity is untouched; for every store kind, a member of the
new store was reconciled or was already a member. -/
theorem reconcile_spec {ecm : EntityComponentManager} :
    ∀ {ch : List Entity} {sys sys' : List (Nat × SystemSt)},
      reconcile ecm ch sys = some sys' → ch.Nodup →
      ∀ p' ∈ sys', ∃ p ∈ sys, p'.1 = p.1 ∧
        p'.2.required_components = p.2.required_components ∧
        (∀ s' : Finset Entity, p'.2.store = .set s' →
          (∀ x ∈ ch, (x ∈ s' ↔
            ∃ tags, alookup ecm.entity_components x = some tags ∧
              p'.2.required_components ⊆ tags)) ∧
          ∃ s, p.2.store = .set s ∧
            ∀ x : Entity, x ∉ ch → (x ∈ s' ↔ x ∈ s)) ∧
        (∀ x : Entity, p'.2.store.memb x → x ∈ ch ∨ p.2.store.memb x) := by
  intro ch
  induction ch with
  | nil =>
      intro sys sys' hrec _ p' hp'
      injection hrec with hrec
      subst hrec
      refine ⟨p', hp', rfl, rfl, ?_, fun x hm => Or.inr hm⟩
      intro s' hs'
      exact ⟨fun x hx => absurd hx (List.not_mem_nil x),
        s', hs', fun x _ => Iff.rfl⟩
  | cons e rest ih =>
      intro sys sys' hrec hnodup p' hp'
      rw [List.nodup_cons] at hnodup
      unfold reconcile at hrec
      cases h1 : reconcileSys ecm e sys with
      | none => rw [h1] at hrec; cases hrec
      | some sys1 =>
          rw [h1] at hrec
          obtain ⟨p1, hp1, hkey, hreq, hset, hmemb⟩ :=
            ih hrec hnodup.2 p' hp'
          cases sys with
          | nil =>
              cases h1' : ecm.has_components e with
              | none =>
                  unfold reconcileSys at h1
                  injection h1 with h1
                  subst h1
                  simp at hp1
              | some tags =>
                  unfold reconcileSys at h1
                  injection h1 with h1
                  subst h1
                  simp at hp1
          | cons q qs =>
              have htags : ∃ tags, ecm.has_components e = some tags := by
                cases h1' : ecm.has_components e with
                | none =>
                    unfold reconcileSys at h1
                    rw [h1'] at h1
                    cases h1
                | some tags => exact ⟨tags, rfl⟩
              obtain ⟨tags, htags⟩ := htags
              rw [reconcileSys_some htags (q :: qs)] at h1
              injection h1 with h1
              subst h1
              obtain ⟨p, hp, hpe⟩ := List.mem_map.mp hp1
              have hst1 : p1.2.store =
                  (if p.2.required_components ⊆ tags then
                    p.2.store.add_entity e
                  else p.2.store.remove_entity e) := by
                rw [← hpe]
              have hreq1 : p1.2.required_components =
                  p.2.required_components := by
                rw [← hpe]
              have hreq' : p'.2.required_components =
                  p.2.required_components := hreq.trans hreq1
              unfold EntityComponentManager.has_components at htags
              refine ⟨p, hp, ?_, hreq', ?_, ?_⟩
              · rw [hkey, ← hpe]
              · intro s' hstore'
                obtain ⟨hin_rest, s1, hstore1, hout_rest⟩ := hset s' hstore'
                rw [hst1] at hstore1
                by_cases hsub : p.2.required_components ⊆ tags
                · rw [if_pos hsub] at hstore1
                  obtain ⟨s0, hs0, hs1⟩ :=
                    InterestStore.add_entity_set_inv hstore1
                  refine ⟨?_, s0, hs0, ?_⟩
                  · intro x hx
                    rcases List.mem_cons.mp hx with hx | hx
                    · subst hx
                      have hxrest : x ∉ rest := hnodup.1
                      rw [hout_rest x hxrest, hs1]
                      simp only [Finset.mem_insert, true_or, true_iff]
                      exact ⟨tags, htags, hreq' ▸ hsub⟩
                    · exact hin_rest x hx
                  · intro x hx
                    rw [List.mem_cons] at hx
                    push_neg at hx
                    rw [hout_rest x hx.2, hs1, Finset.mem_insert]
                    simp only [hx.1, false_or]
                · rw [if_neg hsub] at hstore1
                  obtain ⟨s0, hs0, hs1⟩ :=
                    InterestStore.remove_entity_set_inv hstore1
                  refine ⟨?_, s0, hs0, ?_⟩
                  · intro x hx
                    rcases List.mem_cons.mp hx with hx | hx
                    · subst hx
                      have hxrest : x ∉ rest := hnodup.1
                      rw [hout_rest x hxrest, hs1]
                      simp only [Finset.mem_erase, ne_eq, not_true_eq_false,
                        false_and, false_iff]
                      rintro ⟨tags1, htags1, hsub1⟩
                      rw [htags] at htags1
                      injection htags1 with htags1
                      rw [← htags1, hreq'] at hsub1
                      exact hsub hsub1
                    · exact hin_rest x hx
                  · intro x hx
                    rw [List.mem_cons] at hx
                    push_neg at hx
                    rw [hout_rest x hx.2, hs1, Finset.mem_erase]
                    simp only [ne_eq, hx.1, not_false_eq_true, true_and]
              · intro x hm
                rcases hmemb x hm with hx | hm1
                · exact Or.inl (List.mem_cons_of_mem e hx)
                · rw [hst1] at hm1
                  by_cases hsub : p.2.required_components ⊆ tags
                  · rw [if_pos hsub] at hm1
                    rcases InterestStore.memb_add_sub hm1 with hx | hm0
                    · exact Or.inl (List.mem_cons.mpr (Or.inl hx))
                    · exact Or.inr hm0
                  · rw [if_neg hsub] at hm1
                    exact Or.inr (InterestStore.memb_remove.mp hm1).1

theorem regInv_run_system {r : Registry} {is : List Entity} (inv : RegInv r is)
    {cmds : List WCmd} {ecm' : EntityComponentManager} {ch is' : List Entity}
    {systems' : List (Nat × SystemSt)}
    (hrun : runW r.ec_manager [] is cmds = some (ecm', ch, is'))
    (hrec : reconcile ecm' ch r.systems = some systems') :
    RegInv ⟨ecm', systems'⟩ is' := by
  have w := runW_winv hrun (winv_init inv)
  refine ⟨w.ec, ?_⟩
  intro p' hp'
  obtain ⟨p, hp, hkey, hreq, hset, hmemb⟩ :=
    reconcile_spec hrec w.ch_nodup p' hp'
  have hobs := w.sys p hp
  have hentry : ∀ x ∈ ch, (alookup ecm'.entity_components x).isSome := by
    intro x hx
    obtain ⟨tags, htags⟩ :=
      reconcile_entry_of_mem_ch hrec (List.ne_nil_of_mem hp) x hx
    unfold EntityComponentManager.has_components at htags
    rw [htags]
    rfl
  constructor
  · intro s' hstore' hreqne x
    obtain ⟨hin, s, hstore, hout⟩ := hset s' hstore'
    by_cases hx : x ∈ ch
    · exact hin x hx
    · rw [hout x hx, hreq]
      refine hobs.1 s hstore ?_ x hx
      rw [← hreq]
      exact hreqne
  · intro x hxm
    rcases hmemb x hxm with hx | hm0
    · exact hentry x hx
    · rcases hobs.2 x hm0 with hc | hc
      · exact hentry x hc
      · exact hc

/-- The registry invariant holds along every execution. -/
theorem regInv_of_reachFrom {r0 : Registry} {is0 : List Entity}
    {r : Registry} {is : List Entity} (h : ReachFrom r0 is0 r is)
    (inv0 : RegInv r0 is0) : RegInv r is := by
  induction h with
  | refl => exact inv0
  | createE _ ih => exact Registry.regInv_create ih
  | removeE _ he ih => exact Registry.regInv_remove_entity ih he
  | addComp _ he hs ih => exact Registry.regInv_add_component ih he hs
  | removeComp _ he hs ih => exact Registry.regInv_remove_component ih he hs
  | addSystem _ ih => exact Registry.regInv_add_system ih _ _ _
  | removeSystem _ ih => exact Registry.regInv_remove_system ih _
  | runSystem _ hsys hrun hrec ih => exact regInv_run_system ih hrun hrec

theorem regInv_of_reach {r : Registry} {is : List Entity} (h : Reach r is) :
    RegInv r is :=
  regInv_of_reachFrom h regInv_new

theorem reachFrom_trans {r0 is0 r1 is1 r2 is2}
    (h1 : ReachFrom r0 is0 r1 is1) (h2 : ReachFrom r1 is1 r2 is2) :
    ReachFrom r0 is0 r2 is2 := by
  induction h2 with
  | refl => exact h1
  | createE _ ih => exact ReachFrom.createE ih
  | removeE _ he ih => exact ReachFrom.removeE ih he
  | addComp _ he hs ih => exact ReachFrom.addComp ih he hs
  | removeComp _ he hs ih => exact ReachFrom.removeComp ih he hs
  | addSystem _ ih => exact ReachFrom.addSystem ih
  | removeSystem _ ih => exact ReachFrom.removeSystem ih
  | runSystem _ hsys hrun hrec ih => exact ReachFrom.runSystem ih hsys hrun hrec

namespace EntityComponentManager

theorem remove_entity_gen_le (ecm : EntityComponentManager) (e : Entity)
    (id : Nat) : ecm.entity_manager.alive_generation id ≤
      (ecm.remove_entity e).2.entity_manager.alive_generation id := by
  unfold remove_entity
  cases hs : ecm.entity_manager.remove_entity e with
  | error err => exact Nat.le_refl _
  | ok em' => exact EntityManager.remove_alive_generation_le _ e id em' hs

theorem add_component_em {ecm : EntityComponentManager} {e : Entity}
    {ct : Nat} {v : Val} {q : Except EcsError Unit × EntityComponentManager}
    (hs : ecm.add_component e ct v = some q) :
    q.2.entity_manager = ecm.entity_manager := by
  unfold add_component at hs
  by_cases hd : ecm.is_dead e
  · rw [if_pos hd] at hs
    injection hs with hs
    rw [← hs]
  · rw [if_neg hd] at hs
    cases hc : alookup ecm.entity_components e with
    | none => rw [hc] at hs; cases hs
    | some tags =>
        rw [hc] at hs
        cases hp : alookup ecm.component_pools ct with
        | none =>
            rw [hp] at hs
            cases hn : ComponentPool.new_one e v with
            | none => rw [hn] at hs; cases hs
            | some pool =>
                rw [hn] at hs
                injection hs with hs
                rw [← hs]
        | some pool =>
            rw [hp] at hs
            injection hs with hs
            rw [← hs]

theorem remove_component_em {ecm : EntityComponentManager} {e : Entity}
    {ct : Nat} {q : Except EcsError Unit × EntityComponentManager}
    (hs : ecm.remove_component e ct = some q) :
    q.2.entity_manager = ecm.entity_manager := by
  unfold remove_component at hs
  by_cases hd : ecm.is_dead e
  · rw [if_pos hd] at hs
    injection hs with hs
    rw [← hs]
  · rw [if_neg hd] at hs
    cases hc : alookup ecm.entity_components e with
    | none => rw [hc] at hs; cases hs
    | some tags =>
        rw [hc] at hs
        cases hp : alookup ecm.component_pools ct with
        | none =>
            rw [hp] at hs
            injection hs with hs
            rw [← hs]
        | some pool =>
            rw [hp] at hs
            injection hs with hs
            rw [← hs]

theorem create_entity_gen (ecm : EntityComponentManager) (id : Nat) :
    ecm.create_entity.2.entity_manager.alive_generation id =
      ecm.entity_manager.alive_generation id :=
  EntityManager.create_alive_generation _ id

end EntityComponentManager

/-- Along a completed wrapper run, recorded generations never decrease and
the issued history only grows. -/
theorem runW_mono {cmds : List WCmd} :
    ∀ {ecm : EntityComponentManager} {ch is : List Entity}
      {ecm' : EntityComponentManager} {ch' is' : List Entity},
      runW ecm ch is cmds = some (ecm', ch', is') →
      (∀ id, ecm.entity_manager.alive_generation id ≤
        ecm'.entity_manager.alive_generation id) ∧ is ⊆ is' := by
  induction cmds with
  | nil =>
      intro ecm ch is ecm' ch' is' hrun
      injection hrun with hrun
      injection hrun with h1 hrun
      injection hrun with h2 h3
      subst h1
      subst h3
      exact ⟨fun id => Nat.le_refl _, fun x hx => hx⟩
  | cons c rest ih =>
      intro ecm ch is ecm' ch' is' hrun
      cases c with
      | createE =>
          obtain ⟨hg, hi⟩ := ih hrun
          refine ⟨fun id => ?_, fun x hx => hi (List.mem_cons_of_mem _ hx)⟩
          rw [← EntityComponentManager.create_entity_gen ecm id]
          exact hg id
      | removeE e =>
          unfold runW at hrun
          by_cases he : e ∈ is
          · rw [if_pos he] at hrun
            obtain ⟨hg, hi⟩ := ih hrun
            exact ⟨fun id => Nat.le_trans
              (EntityComponentManager.remove_entity_gen_le ecm e id) (hg id),
              hi⟩
          · rw [if_neg he] at hrun
            cases hrun
      | addComp e ct v =>
          unfold runW at hrun
          by_cases he : e ∈ is
          · rw [if_pos he] at hrun
            cases hq : ecm.add_component e ct v with
            | none => rw [hq] at hrun; cases hrun
            | some q =>
                rw [hq] at hrun
                obtain ⟨hg, hi⟩ := ih hrun
                refine ⟨fun id => ?_, hi⟩
                rw [← EntityComponentManager.add_component_em hq]
                exact hg id
          · rw [if_neg he] at hrun
            cases hrun
      | removeComp e ct =>
          unfold runW at hrun
          by_cases he : e ∈ is
          · rw [if_pos he] at hrun
            cases hq : ecm.remove_component e ct with
            | none => rw [hq] at hrun; cases hrun
            | some q =>
                rw [hq] at hrun
                obtain ⟨hg, hi⟩ := ih hrun
                refine ⟨fun id => ?_, hi⟩
                rw [← EntityComponentManager.remove_component_em hq]
                exact hg id
          · rw [if_neg he] at hrun
            cases hrun

namespace Registry

theorem create_entity_reg_gen (r : Registry) (id : Nat) :
    r.create_entity.2.ec_manager.entity_manager.alive_generation id =
      r.ec_manager.entity_manager.alive_generation id :=
  EntityComponentManager.create_entity_gen r.ec_manager id

theorem remove_entity_reg_gen_le (r : Registry) (e : Entity) (id : Nat) :
    r.ec_manager.entity_manager.alive_generation id ≤
      (r.remove_entity e).2.ec_manager.entity_manager.alive_generation id :=
  EntityComponentManager.remove_entity_gen_le r.ec_manager e id

theorem add_component_reg_em {r : Registry} {e : Entity} {ct : Nat} {v : Val}
    {res : Except EcsError Unit} {r' : Registry}
    (hs : r.add_component e ct v = some (res, r')) :
    r'.ec_manager.entity_manager = r.ec_manager.entity_manager := by
  unfold add_component at hs
  cases hq : r.ec_manager.add_component e ct v with
  | none => rw [hq] at hs; cases hs
  | some q =>
      obtain ⟨res0, ecm'⟩ := q
      have hem : ecm'.entity_manager = r.ec_manager.entity_manager :=
        EntityComponentManager.add_component_em hq
      rw [hq] at hs
      cases res0 with
      | error err =>
          injection hs with hs
          injection hs with hs1 hs2
          rw [← hs2]
          exact hem
      | ok u =>
          cases hai : addInterested ecm' e r.systems with
          | none => simp only [hai] at hs; cases hs
          | some systems' =>
              simp only [hai] at hs
              injection hs with hs
              injection hs with hs1 hs2
              rw [← hs2]
              exact hem

theorem remove_component_reg_em {r : Registry} {e : Entity} {ct : Nat}
    {res : Except EcsError Unit} {r' : Registry}
    (hs : r.remove_component e ct = some (res, r')) :
    r'.ec_manager.entity_manager = r.ec_manager.entity_manager := by
  unfold remove_component at hs
  cases hq : r.ec_manager.remove_component e ct with
  | none => rw [hq] at hs; cases hs
  | some q =>
      obtain ⟨res0, ecm'⟩ := q
      have hem : ecm'.entity_manager = r.ec_manager.entity_manager :=
        EntityComponentManager.remove_component_em hq
      rw [hq] at hs
      cases res0 with
      | error err =>
          injection hs with hs
          injection hs with hs1 hs2
          rw [← hs2]
          exact hem
      | ok u =>
          cases hai : removeUninterested ecm' e r.systems with
          | none => simp only [hai] at hs; cases hs
          | some systems' =>
              simp only [hai] at hs
              injection hs with hs
              injection hs with hs1 hs2
              rw [← hs2]
              exact hem

end Registry

/-- Along every execution, recorded generations never decrease and the
issued history only grows. -/
theorem reachFrom_mono {r0 : Registry} {is0 : List Entity} {r : Registry}
    {is : List Entity} (h : ReachFrom r0 is0 r is) :
    (∀ id, r0.ec_manager.entity_manager.alive_generation id ≤
      r.ec_manager.entity_manager.alive_generation id) ∧ is0 ⊆ is := by
  induction h with
  | refl => exact ⟨fun id => Nat.le_refl _, fun x hx => hx⟩
  | createE h ih =>
      obtain ⟨hg, hi⟩ := ih
      refine ⟨fun id => ?_, fun x hx => List.mem_cons_of_mem _ (hi hx)⟩
      rw [Registry.create_entity_reg_gen]
      exact hg id
  | removeE h he ih =>
      obtain ⟨hg, hi⟩ := ih
      exact ⟨fun id => Nat.le_trans (hg id)
        (Registry.remove_entity_reg_gen_le _ _ id), hi⟩
  | addComp h he hs ih =>
      obtain ⟨hg, hi⟩ := ih
      refine ⟨fun id => ?_, hi⟩
      rw [Registry.add_component_reg_em hs]
      exact hg id
  | removeComp h he hs ih =>
      obtain ⟨hg, hi⟩ := ih
      refine ⟨fun id => ?_, hi⟩
      rw [Registry.remove_component_reg_em hs]
      exact hg id
  | addSystem h ih => exact ih
  | removeSystem h ih => exact ih
  | runSystem h hsys hrun hrec ih =>
      obtain ⟨hg, hi⟩ := ih
      obtain ⟨hg2, hi2⟩ := runW_mono hrun
      exact ⟨fun id => Nat.le_trans (hg id) (hg2 id),
        fun x hx => hi2 (hi hx)⟩

theorem runW_to_plain {cmds : List WCmd} :
    ∀ {ecm : EntityComponentManager} {ch is : List Entity}
      {ecm' : EntityComponentManager} {ch' is' : List Entity},
      runW ecm ch is cmds = some (ecm', ch', is') →
      runWplain ecm ch cmds = some (ecm', ch') := by
  induction cmds with
  | nil =>
      intro ecm ch is ecm' ch' is' hrun
      injection hrun with hrun
      injection hrun with h1 hrun
      injection hrun with h2 h3
      subst h1
      subst h2
      rfl
  | cons c rest ih =>
      intro ecm ch is ecm' ch' is' hrun
      cases c with
      | createE => exact ih hrun
      | removeE e =>
          unfold runW at hrun
          by_cases he : e ∈ is
          · rw [if_pos he] at hrun
            exact ih hrun
          · rw [if_neg he] at hrun
            cases hrun
      | addComp e ct v =>
          unfold runW at hrun
          by_cases he : e ∈ is
          · rw [if_pos he] at hrun
            cases hq : ecm.add_component e ct v with
            | none => rw [hq] at hrun; cases hrun
            | some q =>
                rw [hq] at hrun
                show (match ecm.add_component e ct v with
                  | none => none
                  | some q => runWplain q.2 (insertIfAbsent ch e) rest) =
                    some (ecm', ch')
                rw [hq]
                exact ih hrun
          · rw [if_neg he] at hrun
            cases hrun
      | removeComp e ct =>
          unfold runW at hrun
          by_cases he : e ∈ is
          · rw [if_pos he] at hrun
            cases hq : ecm.remove_component e ct with
            | none => rw [hq] at hrun; cases hrun
            | some q =>
                rw [hq] at hrun
                show (match ecm.remove_component e ct with
                  | none => none
                  | some q => runWplain q.2 (insertIfAbsent ch e) rest) =
                    some (ecm', ch')
                rw [hq]
                exact ih hrun
          · rw [if_neg he] at hrun
            cases hrun

/-- The issued-tracking run used by `ReachFrom.runSystem` agrees with the
`run_system` function: a completed constrained run is a completed
`run_system` call with the same successor state. -/
theorem run_system_of_runW {r : Registry} {sid : Nat} {st : SystemSt}
    {cmds : List WCmd} {is : List Entity} {ecm' : EntityComponentManager}
    {ch is' : List Entity} {systems' : List (Nat × SystemSt)}
    (hsys : alookup r.systems sid = some st)
    (hrun : runW r.ec_manager [] is cmds = some (ecm', ch, is'))
    (hrec : reconcile ecm' ch r.systems = some systems') :
    r.run_system sid cmds = some (.ok ⟨ecm', systems'⟩) := by
  simp only [Registry.run_system, hsys, runW_to_plain hrun, hrec]

namespace EventBus

theorem handlersFor_add_handler_eq (bus : EventBus) (t h : Nat) :
    (bus.add_handler t h).handlersFor t = bus.handlersFor t ++ [h] := by
  unfold add_handler handlersFor
  cases hl : alookup bus.handlers t with
  | none => simp [alookup_ainsert_self]
  | some hs => simp [alookup_ainsert_self]

theorem handlersFor_add_handler_ne (bus : EventBus) {t t' : Nat} (h0 : t' ≠ t)
    (h : Nat) : (bus.add_handler t h).handlersFor t' = bus.handlersFor t' := by
  unfold add_handler handlersFor
  cases hl : alookup bus.handlers t with
  | none => simp [alookup_ainsert_ne _ _ _ _ h0]
  | some hs => simp [alookup_ainsert_ne _ _ _ _ h0]

theorem foldl_add_handler (subs : List (Nat × Nat)) (t : Nat) :
    ∀ bus : EventBus,
      (subs.foldl (fun b p => b.add_handler p.1 p.2) bus).handlersFor t =
        bus.handlersFor t ++ subsFor t subs := by
  induction subs with
  | nil =>
      intro bus
      simp [subsFor]
  | cons p rest ih =>
      intro bus
      obtain ⟨pt, ph⟩ := p
      simp only [List.foldl_cons, ih (EventBus.add_handler bus pt ph)]
      by_cases hp : pt = t
      · subst hp
        rw [handlersFor_add_handler_eq]
        simp [subsFor, List.append_assoc]
      · rw [handlersFor_add_handler_ne bus (fun hc => hp hc.symm)]
        simp [subsFor, hp]

theorem handlersFor_mkBus (subs : List (Nat × Nat)) (t : Nat) :
    (mkBus subs).handlersFor t = subsFor t subs := by
  unfold mkBus
  rw [foldl_add_handler]
  simp [handlersFor, new, alookup]

theorem dispatch_eq_foldl {σ : Type} (interp : Nat → σ → σ) (bus : EventBus)
    (t : Nat) (s : σ) :
    dispatch interp bus t s =
      (bus.handlersFor t).foldl (fun st h => interp h st) s := by
  unfold dispatch handlersFor
  cases hl : alookup bus.handlers t with
  | none => rfl
  | some hs => rfl

end EventBus

deriving instance DecidableEq for Except

/-! Claim theorems. -/

def rC1 : Registry := (Registry.new.add_system 0 ∅ .set).create_entity.2

def stC1 : SystemSt := ⟨∅, .set ∅⟩

def rS1a : Registry :=
  (Registry.new.add_system 1 {0} .slot).create_entity.2.create_entity.2

def rS1b : Registry :=
  ((rS1a.add_component ⟨0, 0⟩ 0 7).getD (.ok (), rS1a)).2

def rS1 : Registry :=
  ((rS1b.add_component ⟨1, 0⟩ 0 7).getD (.ok (), rS1b)).2

def stS1 : SystemSt := ⟨{0}, .slot (some ⟨1, 0⟩)⟩

theorem reach_rS1 : Reach rS1 [⟨1, 0⟩, ⟨0, 0⟩] :=
  @ReachFrom.addComp Registry.new [] rS1b [⟨1, 0⟩, ⟨0, 0⟩] ⟨1, 0⟩ 0 7
    (.ok ()) rS1
    (@ReachFrom.addComp Registry.new [] rS1a [⟨1, 0⟩, ⟨0, 0⟩] ⟨0, 0⟩ 0 7
      (.ok ()) rS1b
      (ReachFrom.createE (ReachFrom.createE
        (ReachFrom.addSystem ReachFrom.refl)))
      (by decide) (by decide))
    (by decide) (by decide)

/-- C1 (counterexample): the interest-set invariant as stated fails twice.
First, for a registered system whose required component-type set is empty:
after `add_system` (which backfills every live entity, here none) followed by
a completed `create_entity`, the new entity is alive with tag set ⊇ ∅, yet it
is not in the interest set, because `create_entity` performs no interest
updates.  Second, for a `CameraFocusSystem`-style system whose bookkeeping is
a single `Option<Entity>` slot, even with a nonempty required set: once two
entities both qualify, the slot holds only the last one added, so the first
is alive and qualifying yet absent. -/
theorem interest_set_invariant_cex :
    (Reach rC1 [⟨0, 0⟩] ∧
      alookup rC1.systems 0 = some stC1 ∧
      ¬ (stC1.store.memb ⟨0, 0⟩ ↔
        (rC1.is_alive ⟨0, 0⟩ ∧ stC1.required_components ⊆ rC1.tags ⟨0, 0⟩))) ∧
    (Reach rS1 [⟨1, 0⟩, ⟨0, 0⟩] ∧
      alookup rS1.systems 1 = some stS1 ∧
      stS1.required_components ≠ ∅ ∧
      ¬ (stS1.store.memb ⟨0, 0⟩ ↔
        (rS1.is_alive ⟨0, 0⟩ ∧ stS1.required_components ⊆ rS1.tags ⟨0, 0⟩))) :=
  ⟨⟨ReachFrom.createE (ReachFrom.addSystem ReachFrom.refl), by decide,
      by decide⟩,
    ⟨reach_rS1, by decide, by decide, by decide⟩⟩

/-- C1 (amended): for every registered system S whose required
component-type set is nonempty and whose interest bookkeeping is a set
(every system in the repository except `CameraFocusSystem`, whose single
`Option<Entity>` slot keeps only the last qualifying entity added), after
every completed Registry operation (i.e. in every reachable registry state),
S's interest set equals exactly the set of entity handles e such that e is
alive and e's tag set is a superset of S's required component-type set. -/
theorem interest_set_invariant_nonempty {r : Registry} {is : List Entity}
    {sid : Nat} {st : SystemSt} {s : Finset Entity} (h : Reach r is)
    (hsys : alookup r.systems sid = some st)
    (hstore : st.store = .set s)
    (hreq : st.required_components ≠ ∅) (e : Entity) :
    e ∈ s ↔
      (r.is_alive e ∧ st.required_components ⊆ r.tags e) := by
  have inv := regInv_of_reach h
  have hok := inv.sys _ (alookup_mem hsys)
  constructor
  · intro hmem
    obtain ⟨tags, htags, hsub⟩ := (hok.1 s hstore hreq e).mp hmem
    refine ⟨(EntityComponentManager.alive_of_mem_entry inv.ec htags).2, ?_⟩
    unfold Registry.tags
    rw [htags]
    exact hsub
  · rintro ⟨ha, hsub⟩
    refine (hok.1 s hstore hreq e).mpr ?_
    unfold Registry.tags at hsub
    cases htags : alookup r.ec_manager.entity_components e with
    | none =>
        rw [htags] at hsub
        exact absurd (Finset.subset_empty.mp hsub) hreq
    | some tags =>
        rw [htags] at hsub
        exact ⟨tags, rfl, hsub⟩

def rW1 : Registry := Registry.new.create_entity.2.add_system 0 {5} .set

/-- C1 (witness): the amended invariant evaluated in a concrete reachable
state holding one entity and one registered set-kind system requiring
tag 5. -/
theorem interest_set_invariant_nonempty_witness :
    (Reach rW1 [⟨0, 0⟩] ∧
      alookup rW1.systems 0 = some ⟨{5}, .set ∅⟩ ∧
      (⟨{5}, .set ∅⟩ : SystemSt).store = .set ∅ ∧
      ({5} : Finset Nat) ≠ ∅) ∧
    ((⟨0, 0⟩ : Entity) ∈ (∅ : Finset Entity) ↔
      (rW1.is_alive ⟨0, 0⟩ ∧ ({5} : Finset Nat) ⊆ rW1.tags ⟨0, 0⟩)) :=
  ⟨⟨ReachFrom.addSystem (ReachFrom.createE ReachFrom.refl), by decide,
      rfl, by decide⟩,
    @interest_set_invariant_nonempty rW1 [⟨0, 0⟩] 0 ⟨{5}, .set ∅⟩ ∅
      (ReachFrom.addSystem (ReachFrom.createE ReachFrom.refl)) (by decide)
      rfl (by decide) ⟨0, 0⟩⟩

def rC2 : Registry := (Registry.new.add_system 0 ∅ .set).create_entity.2

/-- C2 (code bug): with a system registered, a run body that removes a live
entity makes `run_system` panic instead of returning `Ok(())`: the
reconciliation pass unwraps `has_components` for the removed (now entry-less)
entity.  The model evaluates the whole call to `none` (panic) on this
input. -/
theorem run_system_remove_during_run_panics :
    (alookup rC2.systems 0).isSome ∧
    rC2.is_alive ⟨0, 0⟩ ∧
    rC2.run_system 0 [WCmd.removeE ⟨0, 0⟩] = none := by decide

def rW3 : Registry := (Registry.new.create_entity.2.remove_entity ⟨0, 0⟩).2

/-- C3: once `remove_entity(e)` succeeds (so `e` is dead), then in every
later reachable state — including after e's id has been reused — `e` is still
dead, and `add_component(e, v)`, `get_component(e)` and `remove_entity(e)`
all return `DeadEntity` while leaving the registry state completely
unchanged. -/
theorem dead_entity_permanently_rejected {r : Registry} {is : List Entity}
    {r' : Registry} {is' : List Entity} {e : Entity} (h : Reach r is)
    (hstep : ReachFrom r is r' is') (he : e ∈ is) (hd : r.is_dead e)
    (ct : Nat) (v : Val) :
    r'.is_dead e ∧
    r'.add_component e ct v = some (.error .DeadEntity, r') ∧
    r'.get_component e ct = .error .DeadEntity ∧
    r'.remove_entity e = (.error .DeadEntity, r') := by
  have inv := regInv_of_reach h
  have inv' := regInv_of_reach (reachFrom_trans h hstep)
  have hlt : e.generation <
      r.ec_manager.entity_manager.alive_generation e.id :=
    Nat.lt_of_le_of_ne (inv.ec.em.gen_le e he) hd
  have hle := (reachFrom_mono hstep).1 e.id
  have hd' : r'.is_dead e := by
    show e.generation ≠ r'.ec_manager.entity_manager.alive_generation e.id
    omega
  have hget : r'.get_component e ct = .error .DeadEntity := by
    unfold Registry.get_component EntityComponentManager.get_component
    rw [if_pos (show r'.ec_manager.is_dead e from hd')]
  exact ⟨hd', Registry.add_component_dead_noop hd' ct v, hget,
    Registry.remove_entity_dead_noop inv' hd'⟩

/-- C3 (witness): evaluated immediately after a successful removal, with no
further operations. -/
theorem dead_entity_permanently_rejected_witness :
    (Reach rW3 [⟨0, 0⟩] ∧ ReachFrom rW3 [⟨0, 0⟩] rW3 [⟨0, 0⟩] ∧
      (⟨0, 0⟩ : Entity) ∈ ([⟨0, 0⟩] : List Entity) ∧ rW3.is_dead ⟨0, 0⟩) ∧
    (rW3.is_dead ⟨0, 0⟩ ∧
      rW3.add_component ⟨0, 0⟩ 0 7 = some (.error .DeadEntity, rW3) ∧
      rW3.get_component ⟨0, 0⟩ 0 = .error .DeadEntity ∧
      rW3.remove_entity ⟨0, 0⟩ = (.error .DeadEntity, rW3)) :=
  ⟨⟨ReachFrom.removeE (ReachFrom.createE ReachFrom.refl) (by decide),
      ReachFrom.refl, by decide, by decide⟩,
    dead_entity_permanently_rejected
      (ReachFrom.removeE (ReachFrom.createE ReachFrom.refl) (by decide))
      ReachFrom.refl (by decide) (by decide) 0 7⟩

def rC4 : Registry :=
  (List.range 11).foldl (fun r _ => r.create_entity.2) Registry.new

/-- C4 (code bug): `add_component` on a live entity with id 10, for a
component type whose pool does not exist yet, panics instead of returning
`Ok(())`: `ComponentPool::new_one` allocates only `VEC_RESIZE_MARGIN` (10)
slots and indexes slot `entity.id` out of bounds.  The model evaluates the
call to `none` (panic) on this input. -/
theorem add_component_fresh_pool_large_id_panics :
    rC4.is_alive ⟨10, 0⟩ ∧
    alookup rC4.ec_manager.component_pools 0 = none ∧
    ComponentPool.new_one ⟨10, 0⟩ 5 = none ∧
    rC4.add_component ⟨10, 0⟩ 0 5 = none := by decide

def rC5 : Registry := (Registry.new.create_entity.2.remove_entity ⟨0, 0⟩).2

/-- C5 (counterexample): for a dead entity handle and a component type that
was never added to any entity, `remove_component` returns `DeadEntity`, not
the no-such-component-type error: the liveness check runs first. -/
theorem remove_component_dead_handle_cex :
    rC5.is_dead ⟨0, 0⟩ ∧
    alookup rC5.ec_manager.component_pools 0 = none ∧
    rC5.remove_component ⟨0, 0⟩ 0 = some (.error .DeadEntity, rC5) ∧
    EcsError.DeadEntity ≠ EcsError.NoSuchComponent := by decide

/-- C5 (amended): for a component type that was never added to any entity
(no pool exists), `remove_component` returns `NoSuchComponent` for every
*live* entity handle (leaving the state unchanged), while for a dead handle
it returns `DeadEntity`, because the liveness check runs before the pool
check. -/
theorem remove_component_missing_pool_amended {r : Registry}
    {is : List Entity} {e : Entity} {ct : Nat} (h : Reach r is) (he : e ∈ is)
    (hpool : alookup r.ec_manager.component_pools ct = none) :
    (r.is_alive e →
      r.remove_component e ct = some (.error .NoSuchComponent, r)) ∧
    (r.is_dead e →
      r.remove_component e ct = some (.error .DeadEntity, r)) := by
  have inv := regInv_of_reach h
  constructor
  · intro ha
    obtain ⟨tags, htags⟩ :=
      EntityComponentManager.entry_of_alive inv.ec he ha
    exact Registry.remove_component_no_pool_noop inv ha htags hpool
  · intro hd
    exact Registry.remove_component_dead_noop hd ct

def rW5 : Registry := Registry.new.create_entity.2

/-- C5 (witness): evaluated in a concrete reachable state with one live
entity and no pools. -/
theorem remove_component_missing_pool_amended_witness :
    (Reach rW5 [⟨0, 0⟩] ∧ (⟨0, 0⟩ : Entity) ∈ ([⟨0, 0⟩] : List Entity) ∧
      alookup rW5.ec_manager.component_pools 3 = none) ∧
    ((rW5.is_alive ⟨0, 0⟩ →
        rW5.remove_component ⟨0, 0⟩ 3 = some (.error .NoSuchComponent, rW5)) ∧
      (rW5.is_dead ⟨0, 0⟩ →
        rW5.remove_component ⟨0, 0⟩ 3 = some (.error .DeadEntity, rW5))) :=
  ⟨⟨ReachFrom.createE ReachFrom.refl, by decide, by decide⟩,
    remove_component_missing_pool_amended (ReachFrom.createE ReachFrom.refl)
      (by decide) (by decide)⟩

def rC6 : Registry := Registry.new.create_entity.2

/-- C6 (counterexample): for an alive entity and a component type with no
pool, `get_component` and `get_component_mut` return the `NoSuchComponent`
error, not `Ok(None)`. -/
theorem get_component_missing_pool_cex :
    rC6.is_alive ⟨0, 0⟩ ∧
    alookup rC6.ec_manager.component_pools 0 = none ∧
    rC6.get_component ⟨0, 0⟩ 0 = .error .NoSuchComponent ∧
    rC6.get_component_mut ⟨0, 0⟩ 0 = .error .NoSuchComponent ∧
    (Except.error EcsError.NoSuchComponent ≠
      (Except.ok none : Except EcsError (Option Val))) := by decide

/-- C6 (amended): for every alive entity e and every component type T whose
pool does not exist, `get_component` and `get_component_mut` return the
`NoSuchComponent` error; `Ok(None)` is reserved for an existing pool holding
no value for e, and the errors these reads produce are `DeadEntity` and
`NoSuchComponent`. -/
theorem get_component_missing_pool_amended {r : Registry} {e : Entity}
    {ct : Nat} (ha : r.is_alive e)
    (hpool : alookup r.ec_manager.component_pools ct = none) :
    r.get_component e ct = .error .NoSuchComponent ∧
    r.get_component_mut e ct = .error .NoSuchComponent := by
  have hd : ¬ r.ec_manager.is_dead e :=
    EntityComponentManager.not_dead_of_alive ha
  constructor
  · unfold Registry.get_component EntityComponentManager.get_component
    rw [if_neg hd, hpool]
  · unfold Registry.get_component_mut
      EntityComponentManager.get_component_mut
    rw [if_neg hd, hpool]

/-- C6 (witness): evaluated in a concrete reachable state with one live
entity and no pools. -/
theorem get_component_missing_pool_amended_witness :
    (rC6.is_alive ⟨0, 0⟩ ∧
      alookup rC6.ec_manager.component_pools 4 = none) ∧
    (rC6.get_component ⟨0, 0⟩ 4 = .error .NoSuchComponent ∧
      rC6.get_component_mut ⟨0, 0⟩ 4 = .error .NoSuchComponent) :=
  ⟨⟨by decide, by decide⟩,
    get_component_missing_pool_amended (by decide) (by decide)⟩

/-- C7: a successful `remove_entity(e)` increments the recorded generation
of e's id by exactly 1 (and no other id's), `create_entity` never changes
any recorded generation, and a `create_entity` immediately after the
removal returns a handle with the same id and a strictly greater
generation. -/
theorem remove_then_create_generation {em em' : EntityManager} {e : Entity}
    (h : em.remove_entity e = .ok em') :
    em'.alive_generation e.id = em.alive_generation e.id + 1 ∧
    (∀ id, id ≠ e.id → em'.alive_generation id = em.alive_generation id) ∧
    (∀ em2 : EntityManager, ∀ id,
      em2.create_entity.2.alive_generation id = em2.alive_generation id) ∧
    em'.create_entity.1.id = e.id ∧
    e.generation < em'.create_entity.1.generation := by
  obtain ⟨halive, hgen, hother, hfree, -⟩ := EntityManager.remove_ok_spec h
  have hc : em'.create_entity =
      (⟨e.id, em'.alive_generation e.id⟩,
        { em' with free_entity_ids := em.free_entity_ids }) := by
    unfold EntityManager.create_entity
    rw [hfree]
  refine ⟨hgen, hother,
    fun em2 id => EntityManager.create_alive_generation em2 id, ?_, ?_⟩
  · rw [hc]
  · rw [hc]
    show e.generation < em'.alive_generation e.id
    have ha : e.generation = em.alive_generation e.id := halive
    omega

def emW7 : EntityManager := EntityManager.new.create_entity.2

def emW7' : EntityManager := ⟨[0], 1, [1, 0, 0, 0, 0, 0, 0, 0, 0, 0]⟩

/-- C7 (witness): evaluated on the allocator holding exactly one entity,
removed successfully. -/
theorem remove_then_create_generation_witness :
    emW7.remove_entity ⟨0, 0⟩ = .ok emW7' ∧
    (emW7'.alive_generation 0 = emW7.alive_generation 0 + 1 ∧
      (∀ id, id ≠ 0 → emW7'.alive_generation id = emW7.alive_generation id) ∧
      (∀ em2 : EntityManager, ∀ id,
        em2.create_entity.2.alive_generation id = em2.alive_generation id) ∧
      emW7'.create_entity.1.id = 0 ∧
      0 < emW7'.create_entity.1.generation) :=
  ⟨by decide, @remove_then_create_generation emW7 emW7' ⟨0, 0⟩ (by decide)⟩

/-- C8: dispatching an event of type E invokes exactly the handlers
subscribed for E, each exactly once, in subscription order (the subscriber
list the dispatch loop iterates equals the subscription history filtered to
E); when no handler is subscribed for E, dispatch returns the state
unchanged and reports no error. -/
theorem dispatch_subscribed_in_order {σ : Type} (interp : Nat → σ → σ)
    (subs : List (Nat × Nat)) (t : Nat) (bus : EventBus) (s : σ)
    (hbus : bus = EventBus.mkBus subs) :
    bus.handlersFor t = subsFor t subs ∧
    (subsFor t subs = [] → EventBus.dispatch interp bus t s = s) := by
  subst hbus
  refine ⟨EventBus.handlersFor_mkBus subs t, ?_⟩
  intro hempty
  rw [EventBus.dispatch_eq_foldl, EventBus.handlersFor_mkBus subs t, hempty]
  rfl

/-- C8 (witness): a bus with three subscriptions, two of them for event type
1, dispatched for event type 1 and for the unsubscribed event type 3. -/
theorem dispatch_subscribed_in_order_witness :
    (EventBus.mkBus [(1, 10), (2, 20), (1, 11)] =
      EventBus.mkBus [(1, 10), (2, 20), (1, 11)]) ∧
    ((EventBus.mkBus [(1, 10), (2, 20), (1, 11)]).handlersFor 3 =
        subsFor 3 [(1, 10), (2, 20), (1, 11)] ∧
      (subsFor 3 [(1, 10), (2, 20), (1, 11)] = [] →
        EventBus.dispatch (fun h st => st + h)
          (EventBus.mkBus [(1, 10), (2, 20), (1, 11)]) 3 (5 : Nat) = 5)) :=
  ⟨rfl, dispatch_subscribed_in_order (fun h st => st + h)
    [(1, 10), (2, 20), (1, 11)] 3 _ 5 rfl⟩

/-- C9: every handle returned by `create_entity` is alive at the moment it
is returned and distinct from every handle any earlier `create_entity` call
returned: the allocator never issues the same (id, generation) pair twice,
even when ids are recycled through the free list. -/
theorem create_entity_fresh_and_alive {em : EntityManager}
    {is : List Entity} (h : EMReach em is) :
    em.create_entity.2.is_alive em.create_entity.1 ∧
    em.create_entity.1 ∉ is := by
  obtain ⟨-, hfresh, halive⟩ := emInv_create (emReach_inv h)
  exact ⟨halive, hfresh⟩

/-- C9 (witness): evaluated on the allocator that has issued one handle. -/
theorem create_entity_fresh_and_alive_witness :
    EMReach emW7 [⟨0, 0⟩] ∧
    (emW7.create_entity.2.is_alive emW7.create_entity.1 ∧
      emW7.create_entity.1 ∉ ([⟨0, 0⟩] : List Entity)) :=
  ⟨EMReach.create EMReach.init,
    create_entity_fresh_and_alive (EMReach.create EMReach.init)⟩

/-- C10: for every alive entity e and every component type whose pool
exists, `remove_component` returns `Ok(())` — even when e does not currently
hold that component. -/
theorem remove_component_absent_ok {r : Registry} {is : List Entity}
    {e : Entity} {ct : Nat} {pool : ComponentPool} (h : Reach r is)
    (he : e ∈ is) (ha : r.is_alive e)
    (hpool : alookup r.ec_manager.component_pools ct = some pool) :
    ∃ r', r.remove_component e ct = some (.ok (), r') := by
  have inv := regInv_of_reach h
  obtain ⟨tags, htags⟩ := EntityComponentManager.entry_of_alive inv.ec he ha
  exact ⟨_, Registry.reg_remove_component_pool_spec ha htags hpool⟩

def rW10a : Registry := Registry.new.create_entity.2

def rW10b : Registry := ((rW10a.add_component ⟨0, 0⟩ 0 7).getD
  (.ok (), rW10a)).2

def rW10 : Registry := rW10b.create_entity.2

def poolW10 : ComponentPool :=
  (alookup rW10.ec_manager.component_pools 0).getD ⟨[]⟩

theorem reach_rW10 : Reach rW10 [⟨1, 0⟩, ⟨0, 0⟩] :=
  ReachFrom.createE
    (@ReachFrom.addComp Registry.new [] rW10a [⟨0, 0⟩] ⟨0, 0⟩ 0 7 (.ok ())
      rW10b (ReachFrom.createE ReachFrom.refl) (by decide) (by decide))

/-- C10 (witness): entity 1 never received component type 0 (only entity 0
did, which created the pool), yet removing it from entity 1 succeeds. -/
theorem remove_component_absent_ok_witness :
    (Reach rW10 [⟨1, 0⟩, ⟨0, 0⟩] ∧
      (⟨1, 0⟩ : Entity) ∈ ([⟨1, 0⟩, ⟨0, 0⟩] : List Entity) ∧
      rW10.is_alive ⟨1, 0⟩ ∧
      alookup rW10.ec_manager.component_pools 0 = some poolW10 ∧
      0 ∉ rW10.tags ⟨1, 0⟩) ∧
    (∃ r', rW10.remove_component ⟨1, 0⟩ 0 = some (.ok (), r')) :=
  ⟨⟨reach_rW10, by decide, by decide, by decide, by decide⟩,
    @remove_component_absent_ok rW10 [⟨1, 0⟩, ⟨0, 0⟩] ⟨1, 0⟩ 0 poolW10
      reach_rW10 (by decide) (by decide) (by decide)⟩
